import Mathlib

/-!
# Verification of the taxi telemetry labeling pipeline

Shallow embedding of `src/taxi_data_processor_v2.py` (class `TaxiDatasetCreatorV2`)
and of the train/test split of `src/taxi_data_processor.py` (class `TaxiDatasetCreator`),
together with proofs about the stop-segment detector, the event reconciler, the
record parser and the dataset assembler.

Timestamps are modelled as rational numbers of seconds, speeds as rationals.
The pandas dataframes are modelled as lists of structures carrying the columns
that the functions under study read or write; the source's initial
`sort_values('timestamp')` calls are reflected by stating the theorems over the
timestamp-sorted stream that the scans actually traverse.
-/

set_option maxHeartbeats 1000000

namespace Probe

/-- One row of the base stream produced by `process_json_file` (v2, lines 110–118):
timestamp (in seconds), speed, GPS position and the two blinker flags. -/
structure BaseRow where
  t : ℚ
  speed : ℚ
  latitude : ℚ := 0
  longitude : ℚ := 0
  right_blinker : ℕ := 0
  left_blinker : ℕ := 0
  deriving Repr, DecidableEq

/-- A base row after `identify_stop_segments` has assigned `stop_segment` and
`is_stopped` (only the columns read by the later stages are carried). -/
structure SegRow where
  t : ℚ
  speed : ℚ
  stop_segment : ℕ
  is_stopped : Bool
  deriving Repr, DecidableEq

/-- The `time_gap > 60` test of `identify_stop_segments` (line 177–179) against the
previous row's timestamp; `none` means there is no previous row (`i == 0`). -/
def gapTooBig (prevT : Option ℚ) (t : ℚ) : Bool :=
  match prevT with
  | some pt => decide (60 < t - pt)
  | none => false

/-- The candidate low-speed-interval scan of `identify_stop_segments`
(v2, lines 168–199).  `i` is the index of the next row to be examined, `prevT`
the previous row's timestamp, `cur` the start index of the currently open
low-speed run (`in_low_speed`/`start_idx` in the source).  Returns the half-open
index intervals `(start, end)` collected in `low_speed_groups`, in scan order. -/
def lowGroups (thr : ℚ) : List BaseRow → ℕ → Option ℚ → Option ℕ → List (ℕ × ℕ)
  | [], _, _, none => []
  | [], i, _, some s => [(s, i)]
  | r :: rest, i, _, none =>
    if r.speed < thr then lowGroups thr rest (i+1) (some r.t) (some i)
    else lowGroups thr rest (i+1) (some r.t) none
  | r :: rest, i, prevT, some s =>
    if gapTooBig prevT r.t then
      (s, i) :: (if r.speed < thr then lowGroups thr rest (i+1) (some r.t) (some i)
                 else lowGroups thr rest (i+1) (some r.t) none)
    else if r.speed < thr then lowGroups thr rest (i+1) (some r.t) (some s)
    else (s, i) :: lowGroups thr rest (i+1) (some r.t) none

/-- The stop-qualification test of `identify_stop_segments` (v2, lines 202–213):
at least 2 rows, last-minus-first timestamp at least 10 seconds, and at least one
row with speed exactly 0. -/
def segmentQualifies (rows : List BaseRow) (g : ℕ × ℕ) : Bool :=
  let seg := (rows.drop g.1).take (g.2 - g.1)
  match seg.head?, seg.getLast? with
  | some a, some b =>
    decide (2 ≤ seg.length) && decide ((10:ℚ) ≤ b.t - a.t) &&
      seg.any (fun r => decide (r.speed = 0))
  | _, _ => false

/-- Look up the qualifying interval containing row index `i`; `k` counts the
intervals already passed, so the `m`-th interval (0-based) yields id `m + 1`,
matching the source's `segment_id += 1` numbering that starts at 1. -/
def findSeg : List (ℕ × ℕ) → ℕ → ℕ → Option ℕ
  | [], _, _ => none
  | g :: gs, k, i => if g.1 ≤ i ∧ i < g.2 then some (k+1) else findSeg gs (k+1) i

/-- Write `stop_segment` / `is_stopped` onto the rows (v2, lines 214–218); rows
outside every qualifying interval keep `stop_segment = 0`, `is_stopped = 0`. -/
def markRows (qg : List (ℕ × ℕ)) : List BaseRow → ℕ → List SegRow
  | [], _ => []
  | r :: rest, i =>
    (match findSeg qg 0 i with
     | some k => ⟨r.t, r.speed, k, true⟩
     | none => ⟨r.t, r.speed, 0, false⟩) :: markRows qg rest (i+1)

/-- The candidate intervals that pass the qualification test, in scan order. -/
def qualifyingGroups (thr : ℚ) (rows : List BaseRow) : List (ℕ × ℕ) :=
  (lowGroups thr rows 0 none none).filter (segmentQualifies rows)

/-- `identify_stop_segments` (v2, lines 146–223) on the timestamp-sorted base
stream: detect candidate low-speed intervals, keep the qualifying ones, and
assign ids 1, 2, … in scan order. -/
def identify_stop_segments (thr : ℚ) (rows : List BaseRow) : List SegRow :=
  markRows (qualifyingGroups thr rows) rows 0

/-- `speed < thr` at row index `i` (the `is_low_speed` column, line 154);
false past the end of the stream. -/
def lowAt (thr : ℚ) (rows : List BaseRow) (i : ℕ) : Bool :=
  match rows[i]? with
  | some r => decide (r.speed < thr)
  | none => false

/-- Whether the time gap between rows `i-1` and `i` exceeds 60 seconds;
false at `i = 0` and past the end of the stream. -/
def bigGapAt (rows : List BaseRow) (i : ℕ) : Bool :=
  match i with
  | 0 => false
  | j + 1 =>
    match rows[j]?, rows[j+1]? with
    | some p, some r => decide (60 < r.t - p.t)
    | _, _ => false

/-- Declarative description of a candidate interval: a run of low-speed rows,
entered at a stream start / speed drop / big gap, left at stream end / speed
rise / big gap, with no big gap strictly inside. -/
def isCandidate (thr : ℚ) (rows : List BaseRow) (s e : ℕ) : Prop :=
  s < e ∧ e ≤ rows.length ∧
  (∀ i, i < e → s ≤ i → lowAt thr rows i = true) ∧
  (s = 0 ∨ lowAt thr rows (s-1) = false ∨ bigGapAt rows s = true) ∧
  (e = rows.length ∨ lowAt thr rows e = false ∨ bigGapAt rows e = true) ∧
  (∀ i, i < e → s < i → bigGapAt rows i = false)

/-- A maximal contiguous run of rows with speed below the threshold, closed on
each side only by the stream boundary or by a row at or above the threshold. -/
@[reducible] def isMaxLowRun (thr : ℚ) (rows : List BaseRow) (s e : ℕ) : Prop :=
  s < e ∧ e ≤ rows.length ∧
  (∀ i, i < e → s ≤ i → lowAt thr rows i = true) ∧
  (s = 0 ∨ lowAt thr rows (s-1) = false) ∧
  (e = rows.length ∨ lowAt thr rows e = false)

/-- No inter-row time gap exceeding 60 seconds strictly inside `(s, e)`. -/
@[reducible] def noInternalGap (rows : List BaseRow) (s e : ℕ) : Prop :=
  ∀ i, i < e → s < i → bigGapAt rows i = false

/-- Whether the base stream is sorted by timestamp (non-decreasing), the state
`create_dataset` establishes with `sort_values('timestamp')` before the scan. -/
def sortedByT : List BaseRow → Bool
  | [] => true
  | [_] => true
  | a :: b :: rest => decide (a.t ≤ b.t) && sortedByT (b :: rest)

/-- Duration test on an index run `[s, e)`: the last row's timestamp minus the
first row's is at least 10 seconds (false when either row is absent). -/
def durationOk (rows : List BaseRow) (s e : ℕ) : Bool :=
  match rows[s]?, rows[e - 1]? with
  | some a, some b => decide ((10 : ℚ) ≤ b.t - a.t)
  | _, _ => false

/-- The claim's qualification condition on an index run `[s, e)`: at least 2
rows, at least one zero-speed row, and duration (last timestamp minus first)
at least 10 seconds. -/
@[reducible] def runQualifies (rows : List BaseRow) (s e : ℕ) : Prop :=
  2 ≤ e - s ∧
  (∃ j, j < e ∧ s ≤ j ∧ (rows[j]?.map BaseRow.speed) = some 0) ∧
  durationOk rows s e = true

/-! ## Event reconciler: `apply_event_labels` (v2, lines 225–250) -/

/-- One row of the external status log `change_flag_filled0.csv`:
epoch-millisecond timestamp, status code and explicit change flag. -/
structure FlagRow where
  time_stamp : ℤ
  status_management : ℕ
  change_flag : ℤ
  deriving Repr, DecidableEq

/-- A base row after the left merge with the status log (lines 228–237):
the joined columns are `none` when no log row matched the timestamp. -/
structure MergedRow where
  t : ℚ
  speed : ℚ
  stop_segment : ℕ
  is_stopped : Bool
  status_management : Option ℕ
  change_flag : Option ℤ
  deriving Repr, DecidableEq

/-- `df['timestamp'].astype(np.int64) // 10**6`: the timestamp in whole
milliseconds (timestamps are seconds, so multiply by 1000 and floor). -/
def timestampMs (t : ℚ) : ℤ := ⌊t * 1000⌋

/-- The left merge of lines 231–237, matching on the millisecond timestamp
only: every matching log row yields one output row; an unmatched base row
yields one output row with the joined columns missing. -/
def mergeFlags (rows : List SegRow) (flags : List FlagRow) : List MergedRow :=
  rows.flatMap fun r =>
    let ms := timestampMs r.t
    let m := flags.filter fun f => f.time_stamp = ms
    if m.isEmpty then
      [⟨r.t, r.speed, r.stop_segment, r.is_stopped, none, none⟩]
    else
      m.map fun f =>
        ⟨r.t, r.speed, r.stop_segment, r.is_stopped,
          some f.status_management, some f.change_flag⟩

/-- `str()` of a status-code cell: a present integer prints in decimal, a
missing value prints as `nan` (which `zfill(2)` leaves unchanged). -/
def statusStr : Option ℕ → String
  | some n => toString n
  | none => "nan"

/-- Python's `str.zfill(2)`: left-pad with `0` to length 2. -/
def zfill2 (s : String) : String :=
  if s.length < 2 then String.mk (List.replicate (2 - s.length) '0' ++ s.data) else s

/-- The `status_change` column (lines 241–242): the CURRENT row's zero-padded
status code concatenated with the PREVIOUS row's (`shift(1)`) zero-padded
status code.  The first row has no previous code. -/
def statusChangeCode (cur : Option ℕ) (prev : Option (Option ℕ)) : String :=
  zfill2 (statusStr cur) ++ zfill2 (statusStr (prev.getD none))

/-- The transition code as the specification states it: zero-padded PREVIOUS
status code followed by zero-padded CURRENT status code.  (Modelled from the
spec for comparison with `statusChangeCode`, which is what the source builds.) -/
def specTransitionCode (prev cur : Option ℕ) : String :=
  zfill2 (statusStr prev) ++ zfill2 (statusStr cur)

/-- The fixed 27-element boarding-code set `get_on_map` (v2, lines 26–30). -/
def get_on_map : List String :=
  ["0003", "0012", "0014", "0103", "0112", "0114",
   "0203", "0212", "0214", "0403", "0412", "0414",
   "0503", "0512", "0514", "0603", "0612", "0614",
   "0803", "0812", "0814", "1303", "1312", "1314",
   "1503", "1512", "1514"]

/-- The fixed 27-element alighting-code set `get_off_map` (v2, lines 32–36). -/
def get_off_map : List String :=
  ["0300", "1200", "1400", "0301", "1201", "1401",
   "0302", "1202", "1402", "0304", "1204", "1404",
   "0305", "1205", "1405", "0306", "1206", "1406",
   "0308", "1208", "1408", "0313", "1213", "1413",
   "0315", "1215", "1415"]

/-- The sequential `event_type` assignments of lines 245–248: start from 0,
set 1 where `change_flag == 1`, then overwrite with 1 where the transition code
is a boarding code, then overwrite with 2 where it is an alighting code. -/
def eventType (code : String) (cf : Option ℤ) : ℕ :=
  let e0 : ℕ := if cf = some 1 then 1 else 0
  let e1 : ℕ := if get_on_map.contains code then 1 else e0
  if get_off_map.contains code then 2 else e1

/-- The event classification derived from the transition code alone
(2 for an alighting code, else 1 for a boarding code, else 0). -/
def statusEvent (code : String) : ℕ :=
  if get_off_map.contains code then 2
  else if get_on_map.contains code then 1 else 0

/-- A base row entering `label_stop_segments`: timestamp, derived event type,
segment id, stopped flag, and the `label` column it assigns. -/
structure LRow where
  t : ℚ
  event_type : ℕ
  stop_segment : ℕ
  is_stopped : Bool
  label : ℕ
  deriving Repr, DecidableEq

/-- The per-row transition codes of the merged stream, in order: row `i`'s code
pairs its own status string with row `i-1`'s. -/
def transitionCodes (m : List MergedRow) : List String :=
  (m.zip (none :: m.map (fun r => some r.status_management))).map
    fun rp => statusChangeCode rp.1.status_management rp.2

/-- `apply_event_labels` (v2, lines 225–250) on the timestamp-sorted stream:
merge the status log, build the transition codes, and derive `event_type`. -/
def apply_event_labels (rows : List SegRow) (flags : List FlagRow) : List LRow :=
  let m := mergeFlags rows flags
  (m.zip (transitionCodes m)).map fun rc =>
    ⟨rc.1.t, eventType rc.2 rc.1.change_flag, rc.1.stop_segment, rc.1.is_stopped, 0⟩

/-! ## Segment labeling: `label_stop_segments` (v2, lines 252–298) -/

/-- Processing of one event row (lines 262–290): a boarding event (`event_type
== 1`) labels the segment of the last stopped row strictly before the event's
timestamp with 1; an alighting event (`event_type == 2`) labels the segment of
the first stopped row strictly after it with 2; if the search fails or hits
segment id 0, nothing changes. -/
def applyEvent (rows : List LRow) (ev : LRow) : List LRow :=
  if ev.event_type = 1 then
    match ((rows.filter fun r => r.t < ev.t).filter fun r => r.is_stopped).getLast? with
    | some r =>
      if 0 < r.stop_segment then
        rows.map fun x =>
          if x.stop_segment = r.stop_segment then { x with label := 1 } else x
      else rows
    | none => rows
  else if ev.event_type = 2 then
    match ((rows.filter fun r => ev.t < r.t).filter fun r => r.is_stopped).head? with
    | some r =>
      if 0 < r.stop_segment then
        rows.map fun x =>
          if x.stop_segment = r.stop_segment then { x with label := 2 } else x
      else rows
    | none => rows
  else rows

/-- `label_stop_segments` (v2, lines 252–291) on the timestamp-sorted stream:
zero the `label` column, collect the event rows, and process them in order.
(The column drops of lines 292–297 are modelled by `label_output_schema`.) -/
def label_stop_segments (df : List LRow) : List LRow :=
  let rows := df.map fun r => { r with label := 0 }
  let events := rows.filter fun r => 0 < r.event_type
  events.foldl applyEvent rows

/-- The target segment a single event row would label, computed on the stream
it is applied to (mirrors the searches inside `applyEvent`). -/
def eventTargetSeg (rows : List LRow) (ev : LRow) : Option ℕ :=
  if ev.event_type = 1 then
    match ((rows.filter fun r => r.t < ev.t).filter fun r => r.is_stopped).getLast? with
    | some r => if 0 < r.stop_segment then some r.stop_segment else none
    | none => none
  else if ev.event_type = 2 then
    match ((rows.filter fun r => ev.t < r.t).filter fun r => r.is_stopped).head? with
    | some r => if 0 < r.stop_segment then some r.stop_segment else none
    | none => none
  else none

/-- The final label of a row: the event type of the last event targeting the
row's segment, 0 if no event targets it. -/
def finalLabel (rows : List LRow) (events : List LRow) (x : LRow) : ℕ :=
  match (events.filter fun ev => eventTargetSeg rows ev = some x.stop_segment).getLast? with
  | some ev => ev.event_type
  | none => 0

/-- The rows of `base` relabeled so that each row carries the event type of
the last event of `events` targeting its segment (0 when no event does). -/
def labeledRows (base events : List LRow) : List LRow :=
  base.map fun x => { x with label := finalLabel base events x }

/-! ## Column bookkeeping of `label_stop_segments` (v2, lines 292–297) -/

/-- The `columns_to_drop` list of lines 293–295. -/
def labelDropColumns : List String :=
  ["timestamp_ms", "time_stamp", "status_management",
   "change_flag", "status_change", "stop_change",
   "stop_segment", "event_type"]

/-- `df.drop(columns=[col for col in columns_to_drop if col in df.columns])`:
remove from the schema every listed column that is present. -/
def dropExisting (schema to_drop : List String) : List String :=
  schema.filter fun c => !(to_drop.contains c)

/-- The v2 base-table schema just before the drop, in pandas insertion order:
the parser's six columns, the detector's two, the merge/join columns, the
transition code, the event type and the label. -/
def v2SchemaBeforeDrop : List String :=
  ["timestamp", "speed", "latitude", "longitude", "right_blinker", "left_blinker",
   "stop_segment", "is_stopped", "timestamp_ms", "time_stamp", "status_management",
   "change_flag", "status_change", "event_type", "label"]

/-- The schema of the base table emitted by `label_stop_segments`. -/
def label_output_schema : List String :=
  dropExisting v2SchemaBeforeDrop labelDropColumns

/-! ## Record parser: `process_json_file` (v2, lines 45–144) -/

/-- A string-encoded numeric array field (`accX`, …, `radZ`,
`vehicleInformation*Blinker`): either it decodes to a list of numbers or
`json.loads`/`float` fails on it. -/
inductive ArrField where
  | ok (xs : List ℚ)
  | bad
  deriving Repr, DecidableEq

/-- `extract_array_values` (v2, lines 51–57): decode the array, returning `[]`
on any failure. -/
def extract_array_values : ArrField → List ℚ
  | .ok xs => xs
  | .bad => []

/-- One raw sample object of a capture's `data` list; `none` marks an absent
field (`record.get` default paths). -/
structure RawSample where
  timeStamp : Option String := none
  speed : Option ℚ := none
  latitude : Option ℚ := none
  longitude : Option ℚ := none
  accX : ArrField := .ok []
  accY : ArrField := .ok []
  accZ : ArrField := .ok []
  radX : ArrField := .ok []
  radY : ArrField := .ok []
  radZ : ArrField := .ok []
  rightBlinker : ArrField := .ok [0]
  leftBlinker : ArrField := .ok [0]
  deriving Repr

/-- One raw capture document: whether its `recordDateTime` string parses under
`datetime.strptime(_, "%Y%m%d%H%M%S")`, and its sample list. -/
structure Capture where
  recordDateTimeOk : Bool
  samples : List RawSample
  deriving Repr

/-- Whitespace characters stripped by Python's `int` conversion. -/
def pySpace (c : Char) : Bool :=
  c = ' ' ∨ c = '\t' ∨ c = '\n' ∨ c = '\r'

/-- Decimal value of a digit list (most significant first). -/
def digitsToNat (l : List Char) : ℕ :=
  l.foldl (fun a c => a * 10 + (c.toNat - '0'.toNat)) 0

/-- Python's `int(str)`: optional surrounding whitespace, an optional sign,
then at least one decimal digit. -/
def pyIntParse (s : String) : Option ℤ :=
  let t := ((s.data.dropWhile pySpace).reverse.dropWhile pySpace).reverse
  match t with
  | '-' :: rest =>
    if rest ≠ [] ∧ rest.all Char.isDigit then some (-(digitsToNat rest : ℤ)) else none
  | '+' :: rest =>
    if rest ≠ [] ∧ rest.all Char.isDigit then some (digitsToNat rest : ℤ) else none
  | rest =>
    if rest ≠ [] ∧ rest.all Char.isDigit then some (digitsToNat rest : ℤ) else none

/-- `parse_timestamp` (v2, lines 45–49): `strptime` on the capture's
`recordDateTime` may raise, then the millisecond offset string is converted
with `int(...)`; the result (seconds) only uses the offset. -/
def parse_timestamp (recordDateTimeOk : Bool) (timestamp_str : String) : Except Unit ℚ :=
  if !recordDateTimeOk then .error ()
  else
    match pyIntParse timestamp_str with
    | some n => .ok ((n : ℚ) / 1000)
    | none => .error ()

/-- One row of the fine-grained motion stream (v2, lines 129–137): derived
timestamp and the six axis values, `none` marking `np.nan` padding. -/
structure MRow where
  t : ℚ
  acc_x : Option ℚ
  acc_y : Option ℚ
  acc_z : Option ℚ
  rad_x : Option ℚ
  rad_y : Option ℚ
  rad_z : Option ℚ
  deriving Repr, DecidableEq

/-- The blinker reduction of lines 94–101: decode both arrays; if either
fails, both flags are 0, otherwise each flag is 1 iff its array sums to a
nonzero value. -/
def blinkerFlags (rb lb : ArrField) : ℕ × ℕ :=
  match rb, lb with
  | .ok rs, .ok ls =>
    ((if rs.sum ≠ 0 then 1 else 0), (if ls.sum ≠ 0 then 1 else 0))
  | _, _ => (0, 0)

/-- `max_length = max(len(acc_x), …, len(rad_z), 1)` (v2, lines 121–122). -/
def maxAxisLen (ax ay az rx ry rz : List ℚ) : ℕ :=
  max (max (max ax.length ay.length) (max az.length rx.length))
      (max (max ry.length rz.length) 1)

/-- The motion rows emitted for one sample (v2, lines 120–138): `L` is the
maximum axis length (at least 1); row `i` is timestamped `10 ms × i` after the
sample and carries each axis's `i`-th value, or `none` past its end. -/
def motionRows (t : ℚ) (ax ay az rx ry rz : List ℚ) : List MRow :=
  let L := maxAxisLen ax ay az rx ry rz
  (List.range L).map fun i =>
    ⟨t + ((10 * i : ℕ) : ℚ) / 1000, ax[i]?, ay[i]?, az[i]?, rx[i]?, ry[i]?, rz[i]?⟩

/-- The base row and motion rows of one sample once its timestamp `t` is
parsed (v2, lines 82–138): a missing `speed`/`latitude`/`longitude` defaults
to 0. -/
def sampleRows (rec : RawSample) (t : ℚ) : BaseRow × List MRow :=
  let (rbl, lbl) := blinkerFlags rec.rightBlinker rec.leftBlinker
  (⟨t, rec.speed.getD 0, rec.latitude.getD 0, rec.longitude.getD 0, rbl, lbl⟩,
   motionRows t (extract_array_values rec.accX) (extract_array_values rec.accY)
     (extract_array_values rec.accZ) (extract_array_values rec.radX)
     (extract_array_values rec.radY) (extract_array_values rec.radZ))

/-- The sample loop of `process_json_file` (v2, lines 81–138): samples are
processed in order; the first exception (a timestamp that fails to parse)
propagates out of the loop. -/
def processAll (rdOk : Bool) : List RawSample → Except Unit (List BaseRow × List MRow)
  | [] => .ok ([], [])
  | rec :: rest => do
    let t ← parse_timestamp rdOk (rec.timeStamp.getD "0")
    let (b, m) := sampleRows rec t
    let (bs, ms) ← processAll rdOk rest
    .ok (b :: bs, m ++ ms)

/-- `process_json_file` (v2, lines 59–144): an empty `data` list yields empty
results; any exception inside the loop is caught by the outer `except`, which
drops the WHOLE capture (returns two empty frames). -/
def process_json_file (cap : Capture) : List BaseRow × List MRow :=
  if cap.samples.isEmpty then ([], [])
  else
    match processAll cap.recordDateTimeOk cap.samples with
    | .ok r => r
    | .error _ => ([], [])

/-! ## Dataset assembler: the train/test split of `save_dataset`
(`src/taxi_data_processor.py`, lines 243–256) -/

/-- A labeled dataset row as seen by the split: vehicle id and timestamp
(the remaining columns ride along unchanged and are irrelevant to the split). -/
structure CarRow where
  car_id : ℕ
  t : ℚ
  deriving Repr, DecidableEq

/-- The split of one vehicle's rows (lines 250–253):
`split_idx = int(len(car_data) * train_ratio)` (truncation of a nonnegative
float, i.e. the floor), first `split_idx` rows to train, the rest to test. -/
def carSplit (car_data : List CarRow) (train_ratio : ℚ) : List CarRow × List CarRow :=
  let split_idx := ⌊train_ratio * car_data.length⌋₊
  (car_data.take split_idx, car_data.drop split_idx)

/-- `dataset['car_id'].unique()`: the distinct vehicle ids in first-occurrence
order. -/
def uniqueIds : List ℕ → List ℕ
  | [] => []
  | c :: rest => c :: uniqueIds (rest.filter fun x => x ≠ c)
termination_by l => l.length
decreasing_by
  exact Nat.lt_succ_of_le (List.length_filter_le _ _)

/-- The whole split loop of `save_dataset` (lines 244–256): per vehicle, in
first-occurrence order of `car_id`, append that vehicle's train part to the
training partition and its test part to the test partition. -/
def save_dataset_split (dataset : List CarRow) (train_ratio : ℚ) :
    List CarRow × List CarRow :=
  let ids := uniqueIds (dataset.map fun r => r.car_id)
  (ids.flatMap fun c => (carSplit (dataset.filter fun r => r.car_id = c) train_ratio).1,
   ids.flatMap fun c => (carSplit (dataset.filter fun r => r.car_id = c) train_ratio).2)

/-! # Theorems -/

/-! ## Event reconciler (C3, C4) -/

lemma apply_event_labels_getElem? (rows : List SegRow) (flags : List FlagRow) (i : ℕ)
    (r : MergedRow) (c : String)
    (hr : (mergeFlags rows flags)[i]? = some r)
    (hc : (transitionCodes (mergeFlags rows flags))[i]? = some c) :
    (apply_event_labels rows flags)[i]? =
      some ⟨r.t, eventType c r.change_flag, r.stop_segment, r.is_stopped, 0⟩ := by
  unfold apply_event_labels
  have hz : ((mergeFlags rows flags).zip (transitionCodes (mergeFlags rows flags)))[i]?
      = some (r, c) := List.getElem?_zip_eq_some.mpr ⟨hr, hc⟩
  rw [List.getElem?_map, hz]
  rfl

lemma eventType_override (code : String) (cf : Option ℤ)
    (h : code ∈ get_on_map ∨ code ∈ get_off_map) :
    eventType code cf = statusEvent code := by
  unfold eventType statusEvent
  rcases h with h | h
  · by_cases hoff : code ∈ get_off_map <;> simp [h, hoff]
  · simp [h]

/-- **C4**: on a row where both signals fire (`change_flag == 1` and the
transition code belongs to one of the status-code sets), the final
`event_type` is the status-code-derived value (`statusEvent`), i.e. the
transition-code check overrides the change-flag assignment, and the resulting
event is a real event (nonzero). -/
theorem C4_status_code_overrides_change_flag (rows : List SegRow) (flags : List FlagRow)
    (i : ℕ) (r : MergedRow) (code : String)
    (hr : (mergeFlags rows flags)[i]? = some r)
    (hcode : (transitionCodes (mergeFlags rows flags))[i]? = some code)
    (hcf : r.change_flag = some 1)
    (hfires : code ∈ get_on_map ∨ code ∈ get_off_map) :
    ((apply_event_labels rows flags)[i]?).map LRow.event_type = some (statusEvent code) ∧
    0 < statusEvent code := by
  refine ⟨?_, ?_⟩
  · rw [apply_event_labels_getElem? rows flags i r code hr hcode]
    simp [eventType_override code r.change_flag hfires]
  · unfold statusEvent
    rcases hfires with h | h
    · by_cases hoff : code ∈ get_off_map <;> simp [h, hoff]
    · simp [h]

unseal Rat.mul Rat.sub Rat.add Rat.inv in
/-- Witness for C4: two rows with status codes 0 then 3 and `change_flag = 1`
on the second; its transition code is "0300", an alighting code, and the final
event type is 2 despite the change flag. -/
theorem C4_witness :
    ((apply_event_labels [⟨0, 0, 0, false⟩, ⟨1, 0, 0, false⟩]
        [⟨0, 0, 0⟩, ⟨1000, 3, 1⟩])[1]?).map LRow.event_type = some (statusEvent "0300") ∧
    0 < statusEvent "0300" :=
  C4_status_code_overrides_change_flag _ _ 1 ⟨1, 0, 0, false, some 3, some 1⟩ "0300"
    (by decide) (by decide) rfl (by decide)

unseal Rat.mul Rat.sub Rat.add Rat.inv in
/-- **C3**: the claim (and spec) form the transition code as
`zero_pad(previous, 2) + zero_pad(current, 2)`, which for consecutive status
codes 0 → 3 gives "0003", a member of the boarding set.  The code instead
builds `zero_pad(current, 2) + zero_pad(previous, 2)` (`shift(1)` is the
previous row), producing "0300", a member of the alighting set, so the row is
classified ALIGHTING (2) where the documented rule yields BOARDING (1). -/
theorem C3_transition_code_order_bug :
    specTransitionCode (some 0) (some 3) = "0003" ∧
    get_on_map.contains "0003" = true ∧
    (transitionCodes (mergeFlags [⟨0, 0, 0, false⟩, ⟨1, 0, 0, false⟩]
        [⟨0, 0, 0⟩, ⟨1000, 3, 0⟩]))[1]? = some "0300" ∧
    get_off_map.contains "0300" = true ∧
    ((apply_event_labels [⟨0, 0, 0, false⟩, ⟨1, 0, 0, false⟩]
        [⟨0, 0, 0⟩, ⟨1000, 3, 0⟩])[1]?).map LRow.event_type = some 2 := by
  decide

/-! ## Output schema (C5) -/

/-- **C5 counterexample**: the claim states that `stop_segment` survives into
the emitted base table, but `stop_segment` is in `columns_to_drop` and is
removed, while `is_stopped` and `label` do survive. -/
theorem C5_counterexample :
    "stop_segment" ∈ v2SchemaBeforeDrop ∧
    "is_stopped" ∈ label_output_schema ∧
    "label" ∈ label_output_schema ∧
    "stop_segment" ∉ label_output_schema := by decide

/-- **C5 amended**: the emitted base table drops every intermediate working
column AND `stop_segment`; of the derived columns only `is_stopped` and
`label` survive. -/
theorem C5_schema_after_drop :
    label_output_schema =
      ["timestamp", "speed", "latitude", "longitude", "right_blinker",
       "left_blinker", "is_stopped", "label"] ∧
    (∀ c ∈ labelDropColumns, c ∉ label_output_schema) := by decide

/-! ## Record parser (C7, C8, C10) -/

lemma processAll_length (samples : List RawSample)
    (h : ∀ rec ∈ samples, (pyIntParse (rec.timeStamp.getD "0")).isSome = true) :
    ∃ bm, processAll true samples = .ok bm ∧ bm.1.length = samples.length := by
  induction samples with
  | nil => exact ⟨([], []), rfl, rfl⟩
  | cons rec rest ih =>
    obtain ⟨n, hn⟩ := Option.isSome_iff_exists.mp (h rec (List.mem_cons_self _ _))
    obtain ⟨bm, hbm, hlen⟩ := ih fun r hr => h r (List.mem_cons_of_mem _ hr)
    refine ⟨((sampleRows rec ((n : ℚ) / 1000)).1 :: bm.1,
             (sampleRows rec ((n : ℚ) / 1000)).2 ++ bm.2), ?_, by simpa using hlen⟩
    simp only [processAll, parse_timestamp, hn, Bool.not_true, if_neg]
    rw [hbm]
    rfl

lemma processAll_error (samples : List RawSample)
    (h : ∃ rec ∈ samples, pyIntParse (rec.timeStamp.getD "0") = none) :
    processAll true samples = .error () := by
  induction samples with
  | nil => simp at h
  | cons rec rest ih =>
    rcases h with ⟨r, hr, hnone⟩
    rcases List.mem_cons.mp hr with rfl | hr'
    · simp only [processAll, parse_timestamp, hnone, Bool.not_true]
      rfl
    · cases hcase : pyIntParse (rec.timeStamp.getD "0") with
      | none =>
        simp only [processAll, parse_timestamp, hcase, Bool.not_true]
        rfl
      | some n =>
        simp only [processAll, parse_timestamp, hcase, Bool.not_true]
        rw [ih ⟨r, hr', hnone⟩]
        rfl

unseal Rat.mul Rat.sub Rat.add Rat.inv in
/-- **C7 counterexample**: a capture whose first sample has the malformed
offset "abc" and whose second sample is fine yields NO rows at all (the whole
capture is dropped), although the same second sample parses on its own; and a
sample with a MISSING offset is not skipped but kept, defaulting to offset 0. -/
theorem C7_counterexample :
    process_json_file ⟨true, [{ timeStamp := some "abc" },
        { timeStamp := some "1000", speed := some 5 }]⟩ = ([], []) ∧
    (process_json_file ⟨true, [{ timeStamp := some "1000", speed := some 5 }]⟩).1
      = [{ t := 1, speed := 5 }] ∧
    (process_json_file ⟨true, [{ timeStamp := none, speed := some 3 }]⟩).1
      = [{ t := 0, speed := 3 }] := by decide

/-- **C7 amended**: with a parseable capture date, if every sample's effective
offset string (a missing offset defaults to "0") parses, one base row per
sample is emitted; if any sample's offset string is malformed, the WHOLE
capture is dropped: `process_json_file` returns two empty tables. -/
theorem C7_malformed_offset_drops_capture (cap : Capture)
    (hok : cap.recordDateTimeOk = true) :
    ((∀ rec ∈ cap.samples, (pyIntParse (rec.timeStamp.getD "0")).isSome = true) →
      (process_json_file cap).1.length = cap.samples.length) ∧
    ((∃ rec ∈ cap.samples, pyIntParse (rec.timeStamp.getD "0") = none) →
      process_json_file cap = ([], [])) := by
  constructor
  · intro hall
    by_cases hemp : cap.samples.isEmpty
    · rw [List.isEmpty_iff] at hemp
      simp [process_json_file, hemp]
    · obtain ⟨bm, hbm, hlen⟩ := processAll_length cap.samples hall
      simp [process_json_file, hemp, hok, hbm, hlen]
  · intro hex
    have hne : ¬cap.samples.isEmpty := by
      rcases hex with ⟨r, hr, _⟩
      intro h
      rw [List.isEmpty_iff] at h
      rw [h] at hr
      simp at hr
    simp [process_json_file, hne, hok, processAll_error cap.samples hex]

unseal Rat.mul Rat.sub Rat.add Rat.inv in
/-- Witness for C7: a concrete capture with one malformed-offset sample among
two is dropped whole. -/
theorem C7_witness :
    process_json_file ⟨true, [{ timeStamp := some "12x" },
        { timeStamp := some "2000" }]⟩ = ([], []) :=
  (C7_malformed_offset_drops_capture _ rfl).2
    ⟨{ timeStamp := some "12x" }, List.mem_cons_self _ _, by decide⟩

/-- **C8**: for any sample timestamp and any six decoded axis arrays, the
parser emits exactly `max_length` motion rows (`max_length ≥ 1` even when all
arrays are empty); row `i` is timestamped `10 ms × i` after the sample, and
every axis shorter than `i + 1` contributes the missing-value marker (`none`,
modelling `np.nan`) at row `i` — never zero. -/
theorem C8_ragged_arrays (t : ℚ) (ax ay az rx ry rz : List ℚ) :
    (motionRows t ax ay az rx ry rz).length = maxAxisLen ax ay az rx ry rz ∧
    ∀ i, i < maxAxisLen ax ay az rx ry rz →
      ((motionRows t ax ay az rx ry rz)[i]?).map MRow.t
          = some (t + ((10 * i : ℕ) : ℚ) / 1000) ∧
      (ax.length ≤ i → ((motionRows t ax ay az rx ry rz)[i]?).map MRow.acc_x = some none) ∧
      (ay.length ≤ i → ((motionRows t ax ay az rx ry rz)[i]?).map MRow.acc_y = some none) ∧
      (az.length ≤ i → ((motionRows t ax ay az rx ry rz)[i]?).map MRow.acc_z = some none) ∧
      (rx.length ≤ i → ((motionRows t ax ay az rx ry rz)[i]?).map MRow.rad_x = some none) ∧
      (ry.length ≤ i → ((motionRows t ax ay az rx ry rz)[i]?).map MRow.rad_y = some none) ∧
      (rz.length ≤ i → ((motionRows t ax ay az rx ry rz)[i]?).map MRow.rad_z = some none) := by
  have hrow : ∀ i, i < maxAxisLen ax ay az rx ry rz →
      (motionRows t ax ay az rx ry rz)[i]? =
        some ⟨t + ((10 * i : ℕ) : ℚ) / 1000, ax[i]?, ay[i]?, az[i]?, rx[i]?, ry[i]?, rz[i]?⟩ := by
    intro i hi
    unfold motionRows
    rw [List.getElem?_map, List.getElem?_range hi]
    rfl
  refine ⟨by simp [motionRows], fun i hi => ?_⟩
  rw [hrow i hi]
  refine ⟨rfl, fun h => ?_, fun h => ?_, fun h => ?_, fun h => ?_, fun h => ?_, fun h => ?_⟩
  all_goals simp [List.getElem?_eq_none h]

/-- Witness for C8 at the spec's example lengths `[3,5,4,5,3,5]`: exactly 5
rows, and at index 3 the two length-3 axes carry the missing marker. -/
theorem C8_witness :
    (motionRows 0 [1, 1, 1] [2, 2, 2, 2, 2] [3, 3, 3, 3] [4, 4, 4, 4, 4]
        [5, 5, 5] [6, 6, 6, 6, 6]).length = maxAxisLen [1, 1, 1] [2, 2, 2, 2, 2]
        [3, 3, 3, 3] [4, 4, 4, 4, 4] [5, 5, 5] [6, 6, 6, 6, 6] ∧
    ((motionRows 0 [1, 1, 1] [2, 2, 2, 2, 2] [3, 3, 3, 3] [4, 4, 4, 4, 4]
        [5, 5, 5] [6, 6, 6, 6, 6])[3]?).map MRow.acc_x = some none ∧
    ((motionRows 0 [1, 1, 1] [2, 2, 2, 2, 2] [3, 3, 3, 3] [4, 4, 4, 4, 4]
        [5, 5, 5] [6, 6, 6, 6, 6])[3]?).map MRow.rad_y = some none :=
  ⟨(C8_ragged_arrays 0 _ _ _ _ _ _).1,
   ((C8_ragged_arrays 0 _ _ _ _ _ _).2 3 (by decide)).2.1 (by decide),
   ((C8_ragged_arrays 0 _ _ _ _ _ _).2 3 (by decide)).2.2.2.2.2.1 (by decide)⟩

unseal Rat.mul Rat.sub Rat.add Rat.inv in
/-- **C10**: a sample with no `speed` field yields a base row whose speed is
exactly 0 (the `record.get('speed', 0)` default), and such a row counts as the
zero-speed instant of stop-segment qualification: in the concrete capture
below only the middle sample (missing speed) is ever at speed 0, yet the run
qualifies and all three rows are marked as stop segment 1. -/
theorem C10_missing_speed_defaults_to_zero (rec : RawSample) (t : ℚ)
    (h : rec.speed = none) :
    (sampleRows rec t).1.speed = 0 ∧
    (identify_stop_segments 10 (process_json_file
        ⟨true, [{ timeStamp := some "0", speed := some 5 },
                { timeStamp := some "6000", speed := none },
                { timeStamp := some "12000", speed := some 3 }]⟩).1).map
        (fun r => (r.speed, r.stop_segment, r.is_stopped))
      = [(5, 1, true), (0, 1, true), (3, 1, true)] := by
  constructor
  · simp [sampleRows, h]
  · decide

unseal Rat.mul Rat.sub Rat.add Rat.inv in
/-- Witness for C10: a concrete sample with `speed = none`. -/
theorem C10_witness :
    (sampleRows { speed := none } 0).1.speed = 0 :=
  (C10_missing_speed_defaults_to_zero { speed := none } 0 rfl).1

/-! ## Dataset assembler (C9) -/

lemma mem_uniqueIds (l : List ℕ) (c : ℕ) : c ∈ uniqueIds l ↔ c ∈ l := by
  induction l using uniqueIds.induct with
  | case1 => simp [uniqueIds]
  | case2 a rest ih =>
    rw [uniqueIds]
    by_cases hca : c = a
    · subst hca; simp
    · simp only [List.mem_cons, ih, List.mem_filter, hca, false_or]
      constructor
      · exact fun hr => hr.1
      · exact fun hr => ⟨hr, by simpa using hca⟩

lemma nodup_uniqueIds (l : List ℕ) : (uniqueIds l).Nodup := by
  induction l using uniqueIds.induct with
  | case1 => simp [uniqueIds]
  | case2 a rest ih =>
    rw [uniqueIds]
    refine List.Nodup.cons ?_ ih
    intro hmem
    have := (mem_uniqueIds _ _).mp hmem
    simp at this

lemma filter_flatMap_comm {α : Type} (l : List ℕ) (f : ℕ → List α) (p : α → Bool) :
    (l.flatMap f).filter p = l.flatMap fun a => (f a).filter p := by
  induction l with
  | nil => rfl
  | cons a rest ih => simp [List.flatMap_cons, List.filter_append, ih]

lemma flatMap_nil_of_all {α : Type} (l : List ℕ) (g : ℕ → List α)
    (h : ∀ c ∈ l, g c = []) : l.flatMap g = [] := by
  induction l with
  | nil => rfl
  | cons a rest ih =>
    simp [List.flatMap_cons, h a (List.mem_cons_self _ _),
      ih fun c hc => h c (List.mem_cons_of_mem _ hc)]

lemma flatMap_single {α : Type} (ids : List ℕ) (g : ℕ → List α) (c : ℕ)
    (hnd : ids.Nodup) (hc : c ∈ ids) (hz : ∀ c' ∈ ids, c' ≠ c → g c' = []) :
    ids.flatMap g = g c := by
  induction ids with
  | nil => simp at hc
  | cons a rest ih =>
    rcases List.mem_cons.mp hc with rfl | hc'
    · have hz' : ∀ c' ∈ rest, g c' = [] := fun c' h' =>
        hz c' (List.mem_cons_of_mem _ h')
          fun he => (List.nodup_cons.mp hnd).1 (he ▸ h')
      simp [List.flatMap_cons, flatMap_nil_of_all rest g hz']
    · have ha : g a = [] := hz a (List.mem_cons_self _ _)
        fun he => (List.nodup_cons.mp hnd).1 (he ▸ hc')
      simp [List.flatMap_cons, ha,
        ih (List.Nodup.of_cons hnd) hc'
          fun c' h' hne => hz c' (List.mem_cons_of_mem _ h') hne]

/-- **C9**: for every vehicle `c` present in the dataset and every
`train_ratio` in (0,1), the split sends exactly the first
`⌊train_ratio × n⌋` of that vehicle's `n` rows (in dataset order) to the
training partition and the remaining rows to the test partition, each
preserving the original order, and concatenating the vehicle's training rows
with its test rows reproduces the vehicle's original row sequence. -/
theorem C9_per_vehicle_split (dataset : List CarRow) (ratio : ℚ) (c : ℕ)
    (h0 : 0 < ratio) (h1 : ratio < 1)
    (hc : c ∈ dataset.map fun r => r.car_id) :
    ((save_dataset_split dataset ratio).1.filter fun r => r.car_id = c)
        = (dataset.filter fun r => r.car_id = c).take
            ⌊ratio * (dataset.filter fun r => r.car_id = c).length⌋₊ ∧
    ((save_dataset_split dataset ratio).2.filter fun r => r.car_id = c)
        = (dataset.filter fun r => r.car_id = c).drop
            ⌊ratio * (dataset.filter fun r => r.car_id = c).length⌋₊ ∧
    ((dataset.filter fun r => r.car_id = c).take
        ⌊ratio * (dataset.filter fun r => r.car_id = c).length⌋₊).length
      = ⌊ratio * (dataset.filter fun r => r.car_id = c).length⌋₊ ∧
    (dataset.filter fun r => r.car_id = c).take
        ⌊ratio * (dataset.filter fun r => r.car_id = c).length⌋₊ ++
      (dataset.filter fun r => r.car_id = c).drop
        ⌊ratio * (dataset.filter fun r => r.car_id = c).length⌋₊
      = dataset.filter fun r => r.car_id = c := by
  have hmem : c ∈ uniqueIds (dataset.map fun r => r.car_id) :=
    (mem_uniqueIds _ _).mpr hc
  have hnd := nodup_uniqueIds (dataset.map fun r => r.car_id)
  have hkn : ⌊ratio * (dataset.filter fun r => r.car_id = c).length⌋₊
      ≤ (dataset.filter fun r => r.car_id = c).length := by
    have hle : ratio * ((dataset.filter fun r => r.car_id = c).length : ℚ)
        ≤ ((dataset.filter fun r => r.car_id = c).length : ℚ) :=
      mul_le_of_le_one_left (Nat.cast_nonneg _) h1.le
    calc ⌊ratio * (dataset.filter fun r => r.car_id = c).length⌋₊
        ≤ ⌊(((dataset.filter fun r => r.car_id = c).length : ℕ) : ℚ)⌋₊ :=
          Nat.floor_le_floor hle
      _ = (dataset.filter fun r => r.car_id = c).length := Nat.floor_natCast _
  refine ⟨?_, ?_, ?_, List.take_append_drop _ _⟩
  · show ((uniqueIds (dataset.map fun r => r.car_id)).flatMap fun c2 =>
        (carSplit (dataset.filter fun r => r.car_id = c2) ratio).1).filter
          (fun r => r.car_id = c)
      = (dataset.filter fun r => r.car_id = c).take
          ⌊ratio * (dataset.filter fun r => r.car_id = c).length⌋₊
    rw [filter_flatMap_comm]
    rw [flatMap_single _ _ c hnd hmem (fun c2 h2 hne => ?_)]
    · refine (List.filter_eq_self.mpr fun x hx => ?_)
      have hxm := List.mem_filter.mp (List.mem_of_mem_take hx)
      simpa using hxm.2
    · refine List.filter_eq_nil_iff.mpr fun x hx => ?_
      have hxm := List.mem_filter.mp (List.mem_of_mem_take hx)
      have hx2 : x.car_id = c2 := by simpa using hxm.2
      simp only [decide_eq_true_eq]
      exact fun hxc => hne (hx2 ▸ hxc)
  · show ((uniqueIds (dataset.map fun r => r.car_id)).flatMap fun c2 =>
        (carSplit (dataset.filter fun r => r.car_id = c2) ratio).2).filter
          (fun r => r.car_id = c)
      = (dataset.filter fun r => r.car_id = c).drop
          ⌊ratio * (dataset.filter fun r => r.car_id = c).length⌋₊
    rw [filter_flatMap_comm]
    rw [flatMap_single _ _ c hnd hmem (fun c2 h2 hne => ?_)]
    · refine (List.filter_eq_self.mpr fun x hx => ?_)
      have hxm := List.mem_filter.mp (List.mem_of_mem_drop hx)
      simpa using hxm.2
    · refine List.filter_eq_nil_iff.mpr fun x hx => ?_
      have hxm := List.mem_filter.mp (List.mem_of_mem_drop hx)
      have hx2 : x.car_id = c2 := by simpa using hxm.2
      simp only [decide_eq_true_eq]
      exact fun hxc => hne (hx2 ▸ hxc)
  · rw [List.length_take]
    exact Nat.min_eq_left hkn

unseal Rat.mul Rat.sub Rat.add Rat.inv in
/-- Witness for C9: on 10 ordered rows of one vehicle with `train_ratio = 0.8`,
the training partition holds exactly the first `⌊0.8 × 10⌋ = 8` rows. -/
theorem C9_witness :
    ((save_dataset_split [⟨7, 0⟩, ⟨7, 1⟩, ⟨7, 2⟩, ⟨7, 3⟩, ⟨7, 4⟩, ⟨7, 5⟩,
        ⟨7, 6⟩, ⟨7, 7⟩, ⟨7, 8⟩, ⟨7, 9⟩] (4/5)).1.filter fun r => r.car_id = 7)
      = (([⟨7, 0⟩, ⟨7, 1⟩, ⟨7, 2⟩, ⟨7, 3⟩, ⟨7, 4⟩, ⟨7, 5⟩, ⟨7, 6⟩, ⟨7, 7⟩,
          ⟨7, 8⟩, ⟨7, 9⟩] : List CarRow).filter fun r => r.car_id = 7).take
          ⌊(4/5 : ℚ) * (([⟨7, 0⟩, ⟨7, 1⟩, ⟨7, 2⟩, ⟨7, 3⟩, ⟨7, 4⟩, ⟨7, 5⟩,
            ⟨7, 6⟩, ⟨7, 7⟩, ⟨7, 8⟩, ⟨7, 9⟩] : List CarRow).filter
              fun r => r.car_id = 7).length⌋₊ ∧
    ⌊(4/5 : ℚ) * ((10 : ℕ) : ℚ)⌋₊ = 8 :=
  ⟨(C9_per_vehicle_split _ (4/5) 7 (by norm_num) (by norm_num) (by decide)).1,
   by decide⟩

/-! ## Stop-segment detector: characterization of the candidate scan (C1, C6) -/

lemma drop_cons_facts (rows rest : List BaseRow) (r : BaseRow) (i : ℕ)
    (h : rows.drop i = r :: rest) :
    rows[i]? = some r ∧ rest = rows.drop (i + 1) ∧ i < rows.length := by
  refine ⟨?_, ?_, ?_⟩
  · have h0 : (rows.drop i)[0]? = rows[i + 0]? := List.getElem?_drop rows i 0
    rw [h] at h0
    simpa using h0.symm
  · have ht : (rows.drop i).tail = rows.drop (i + 1) := by
      rw [List.tail_drop]
    rw [h] at ht
    simpa using ht
  · by_contra hlt
    have : rows.drop i = [] := List.drop_eq_nil_of_le (by omega)
    rw [h] at this
    simp at this

lemma lowAt_eq_of_getElem? (thr : ℚ) (rows : List BaseRow) (i : ℕ) (r : BaseRow)
    (h : rows[i]? = some r) : lowAt thr rows i = decide (r.speed < thr) := by
  simp [lowAt, h]

lemma gapTooBig_eq_bigGapAt (rows : List BaseRow) (i : ℕ) (r : BaseRow)
    (hipos : 0 < i) (hri : rows[i]? = some r) :
    gapTooBig ((rows[i - 1]?).map BaseRow.t) r.t = bigGapAt rows i := by
  obtain ⟨j, rfl⟩ : ∃ j, i = j + 1 := ⟨i - 1, by omega⟩
  have hj : j + 1 < rows.length := by
    by_contra hlt
    rw [List.getElem?_eq_none (by omega)] at hri
    exact Option.noConfusion hri
  have hpj : rows[j]? = some rows[j] := List.getElem?_eq_getElem (by omega)
  simp only [Nat.add_sub_cancel]
  rw [hpj]
  simp [gapTooBig, bigGapAt, hpj, hri]

lemma lowGroups_complete (thr : ℚ) (rows : List BaseRow) (s e : ℕ)
    (hse : s < e) (hen : e ≤ rows.length)
    (hlow : ∀ i, i < e → s ≤ i → lowAt thr rows i = true)
    (hstart : s = 0 ∨ lowAt thr rows (s - 1) = false ∨ bigGapAt rows s = true)
    (hend : e = rows.length ∨ lowAt thr rows e = false ∨ bigGapAt rows e = true)
    (hint : ∀ i, i < e → s < i → bigGapAt rows i = false) :
    ∀ (l : List BaseRow) (i : ℕ) (prevT : Option ℚ) (cur : Option ℕ),
      l = rows.drop i → i ≤ rows.length →
      (0 < i → prevT = (rows[i - 1]?).map BaseRow.t) →
      (∀ s0, cur = some s0 → s0 < i ∧ 0 < i ∧ lowAt thr rows (i - 1) = true) →
      (i ≤ s ∨ (cur = some s ∧ i ≤ e)) →
      (s, e) ∈ lowGroups thr l i prevT cur := by
  intro l
  induction l with
  | nil =>
    intro i prevT cur hl hi hprev hcur htgt
    have hin : rows.length ≤ i := by
      have hlen := congrArg List.length hl
      simp [List.length_drop] at hlen
      omega
    cases cur with
    | none =>
      rcases htgt with hs | ⟨hcs, _⟩
      · omega
      · exact absurd hcs (by simp)
    | some s0 =>
      rcases htgt with hs | ⟨hcs, hie⟩
      · omega
      · have hs0 : s0 = s := Option.some.inj hcs
        have hei : e = i := by omega
        subst hs0 hei
        simp [lowGroups]
  | cons r rest ih =>
    intro i prevT cur hl hi hprev hcur htgt
    obtain ⟨hri, hrest, hilt⟩ := drop_cons_facts rows rest r i hl.symm
    have hlowi := lowAt_eq_of_getElem? thr rows i r hri
    cases cur with
    | none =>
      have hts : i ≤ s := by
        rcases htgt with hs | ⟨hcs, _⟩
        · exact hs
        · exact absurd hcs (by simp)
      simp only [lowGroups]
      rcases Nat.lt_or_ge i s with his | hsi
      · -- i < s : keep scanning, target stays in the future
        by_cases hlo : r.speed < thr
        · rw [if_pos hlo]
          refine ih (i + 1) (some r.t) (some i) hrest (by omega) ?_ ?_ (Or.inl (by omega))
          · intro _
            simp [hri]
          · intro s0 hs0
            obtain rfl : i = s0 := Option.some.inj hs0
            refine ⟨by omega, by omega, ?_⟩
            simp only [Nat.add_sub_cancel]
            rw [hlowi]
            simpa using hlo
        · rw [if_neg hlo]
          refine ih (i + 1) (some r.t) none hrest (by omega) ?_ (by simp) (Or.inl (by omega))
          intro _
          simp [hri]
      · -- i = s : the run opens here
        have his : i = s := by omega
        subst his
        have hlo : r.speed < thr := by
          have := hlow i hse (le_refl i)
          rw [hlowi] at this
          simpa using this
        rw [if_pos hlo]
        refine ih (i + 1) (some r.t) (some i) hrest (by omega) ?_ ?_
          (Or.inr ⟨rfl, by omega⟩)
        · intro _
          simp [hri]
        · intro s0 hs0
          obtain rfl : i = s0 := Option.some.inj hs0
          refine ⟨by omega, by omega, ?_⟩
          simp only [Nat.add_sub_cancel]
          rw [hlowi]
          simpa using hlo
    | some s0 =>
      obtain ⟨hs0i, hipos, hlowprev⟩ := hcur s0 rfl
      have hgeq := gapTooBig_eq_bigGapAt rows i r hipos hri
      rw [← hprev hipos] at hgeq
      simp only [lowGroups]
      rcases htgt with hts | ⟨hcs, hie⟩
      · -- the target run is still ahead: i ≤ s
        rcases Nat.lt_or_ge i s with his | hsi
        · -- i < s : whatever happens, recurse
          by_cases hgap : gapTooBig prevT r.t
          · rw [if_pos hgap]
            by_cases hlo : r.speed < thr
            · rw [if_pos hlo]
              refine List.mem_cons_of_mem _ ?_
              refine ih (i + 1) (some r.t) (some i) hrest (by omega) ?_ ?_ (Or.inl (by omega))
              · intro _
                simp [hri]
              · intro s1 hs1
                obtain rfl : i = s1 := Option.some.inj hs1
                refine ⟨by omega, by omega, ?_⟩
                simp only [Nat.add_sub_cancel]
                rw [hlowi]
                simpa using hlo
            · rw [if_neg hlo]
              refine List.mem_cons_of_mem _ ?_
              refine ih (i + 1) (some r.t) none hrest (by omega) ?_ (by simp)
                (Or.inl (by omega))
              intro _
              simp [hri]
          · rw [if_neg hgap]
            by_cases hlo : r.speed < thr
            · rw [if_pos hlo]
              refine ih (i + 1) (some r.t) (some s0) hrest (by omega) ?_ ?_
                (Or.inl (by omega))
              · intro _
                simp [hri]
              · intro s1 hs1
                obtain rfl : s0 = s1 := Option.some.inj hs1
                refine ⟨by omega, by omega, ?_⟩
                simp only [Nat.add_sub_cancel]
                rw [hlowi]
                simpa using hlo
            · rw [if_neg hlo]
              refine List.mem_cons_of_mem _ ?_
              refine ih (i + 1) (some r.t) none hrest (by omega) ?_ (by simp)
                (Or.inl (by omega))
              intro _
              simp [hri]
        · -- i = s : a new run must open at s
          have his : i = s := by omega
          subst his
          have hlo : r.speed < thr := by
            have := hlow i hse (le_refl i)
            rw [hlowi] at this
            simpa using this
          have hgap : gapTooBig prevT r.t = true := by
            rcases hstart with h0 | hlows | hbig
            · omega
            · rw [hlows] at hlowprev
              exact absurd hlowprev (by simp)
            · rw [hgeq]
              exact hbig
          rw [if_pos hgap, if_pos hlo]
          refine List.mem_cons_of_mem _ ?_
          refine ih (i + 1) (some r.t) (some i) hrest (by omega) ?_ ?_
            (Or.inr ⟨rfl, by omega⟩)
          · intro _
            simp [hri]
          · intro s1 hs1
            obtain rfl : i = s1 := Option.some.inj hs1
            refine ⟨by omega, by omega, ?_⟩
            simp only [Nat.add_sub_cancel]
            rw [hlowi]
            simpa using hlo
      · -- the target run is the open one: cur = some s
        obtain rfl : s = s0 := (Option.some.inj hcs).symm
        rcases Nat.lt_or_ge i e with hie2 | hie3
        · -- strictly inside the run: stay open
          have hlo : r.speed < thr := by
            have := hlow i hie2 (by omega)
            rw [hlowi] at this
            simpa using this
          have hgap : gapTooBig prevT r.t = false := by
            rw [hgeq]
            exact hint i hie2 (by omega)
          rw [if_neg (by simp [hgap]), if_pos hlo]
          refine ih (i + 1) (some r.t) (some s) hrest (by omega) ?_ ?_
            (Or.inr ⟨rfl, by omega⟩)
          · intro _
            simp [hri]
          · intro s1 hs1
            obtain rfl : s = s1 := Option.some.inj hs1
            refine ⟨by omega, by omega, ?_⟩
            simp only [Nat.add_sub_cancel]
            rw [hlowi]
            simpa using hlo
        · -- i = e : the run closes exactly here
          have hieq : i = e := by omega
          subst hieq
          have hnotn : ¬(i = rows.length) := by omega
          by_cases hgap : gapTooBig prevT r.t
          · rw [if_pos hgap]
            exact List.mem_cons_self _ _
          · rw [if_neg hgap]
            have hlowe : lowAt thr rows i = false := by
              rcases hend with h0 | hlows | hbig
              · exact absurd h0 hnotn
              · exact hlows
              · rw [hgeq] at hgap
                simp [hbig] at hgap
            have hlo : ¬(r.speed < thr) := by
              rw [hlowi] at hlowe
              simpa using hlowe
            rw [if_neg hlo]
            exact List.mem_cons_self _ _

lemma lowGroups_sound (thr : ℚ) (rows : List BaseRow) :
    ∀ (l : List BaseRow) (i : ℕ) (prevT : Option ℚ) (cur : Option ℕ),
      l = rows.drop i → i ≤ rows.length →
      (0 < i → prevT = (rows[i - 1]?).map BaseRow.t) →
      (∀ s0, cur = some s0 → s0 < i ∧
        (∀ j, j < i → s0 ≤ j → lowAt thr rows j = true) ∧
        (∀ j, j < i → s0 < j → bigGapAt rows j = false)) →
      (∀ g ∈ lowGroups thr l i prevT cur,
        (cur.elim i id) ≤ g.1 ∧ g.1 < g.2 ∧ g.2 ≤ rows.length ∧
        (∀ j, j < g.2 → g.1 ≤ j → lowAt thr rows j = true) ∧
        (∀ j, j < g.2 → g.1 < j → bigGapAt rows j = false)) ∧
      (lowGroups thr l i prevT cur).Pairwise (fun a b => a.2 ≤ b.1) := by
  intro l
  induction l with
  | nil =>
    intro i prevT cur hl hi hprev hcur
    cases cur with
    | none => simp [lowGroups]
    | some s0 =>
      obtain ⟨hs0i, hlows0, hgaps0⟩ := hcur s0 rfl
      refine ⟨?_, by simp [lowGroups]⟩
      intro g hg
      simp only [lowGroups, List.mem_singleton] at hg
      subst hg
      exact ⟨le_refl _, hs0i, hi, hlows0, hgaps0⟩
  | cons r rest ih =>
    intro i prevT cur hl hi hprev hcur
    obtain ⟨hri, hrest, hilt⟩ := drop_cons_facts rows rest r i hl.symm
    have hlowi := lowAt_eq_of_getElem? thr rows i r hri
    have hprev1 : 0 < i + 1 → some r.t = (rows[i + 1 - 1]?).map BaseRow.t := by
      intro _
      simp [hri]
    cases cur with
    | none =>
      simp only [lowGroups]
      by_cases hlo : r.speed < thr
      · rw [if_pos hlo]
        have hinv : ∀ s0, some i = some s0 → s0 < i + 1 ∧
            (∀ j, j < i + 1 → s0 ≤ j → lowAt thr rows j = true) ∧
            (∀ j, j < i + 1 → s0 < j → bigGapAt rows j = false) := by
          intro s0 hs0
          obtain rfl : i = s0 := Option.some.inj hs0
          refine ⟨by omega, ?_, fun j hj1 hj2 => by omega⟩
          intro j hj1 hj2
          have hji : j = i := by omega
          subst hji
          rw [hlowi]
          simpa using hlo
        obtain ⟨hall, hpw⟩ := ih (i + 1) (some r.t) (some i) hrest (by omega) hprev1 hinv
        refine ⟨fun g hg => ?_, hpw⟩
        obtain ⟨hb, hrest2⟩ := hall g hg
        have hb2 : i ≤ g.1 := by simpa using hb
        exact ⟨by simpa using hb2, hrest2⟩
      · rw [if_neg hlo]
        obtain ⟨hall, hpw⟩ := ih (i + 1) (some r.t) none hrest (by omega) hprev1 (by simp)
        refine ⟨fun g hg => ?_, hpw⟩
        obtain ⟨hb, hrest2⟩ := hall g hg
        have hb2 : i + 1 ≤ g.1 := by simpa using hb
        exact ⟨by simp only [Option.elim_none]; omega, hrest2⟩
    | some s0 =>
      obtain ⟨hs0i, hlows0, hgaps0⟩ := hcur s0 rfl
      have hipos : 0 < i := by omega
      have hgeq := gapTooBig_eq_bigGapAt rows i r hipos hri
      rw [← hprev hipos] at hgeq
      have hcons : Option.elim (some s0) i id ≤ s0 ∧ s0 < i ∧ i ≤ rows.length ∧
          (∀ j, j < i → s0 ≤ j → lowAt thr rows j = true) ∧
          (∀ j, j < i → s0 < j → bigGapAt rows j = false) :=
        ⟨by simp, hs0i, by omega, hlows0, hgaps0⟩
      simp only [lowGroups]
      by_cases hgap : gapTooBig prevT r.t
      · rw [if_pos hgap]
        by_cases hlo : r.speed < thr
        · rw [if_pos hlo]
          have hinv : ∀ s1, some i = some s1 → s1 < i + 1 ∧
              (∀ j, j < i + 1 → s1 ≤ j → lowAt thr rows j = true) ∧
              (∀ j, j < i + 1 → s1 < j → bigGapAt rows j = false) := by
            intro s1 hs1
            obtain rfl : i = s1 := Option.some.inj hs1
            refine ⟨by omega, ?_, fun j hj1 hj2 => by omega⟩
            intro j hj1 hj2
            have hji : j = i := by omega
            subst hji
            rw [hlowi]
            simpa using hlo
          obtain ⟨hall, hpw⟩ := ih (i + 1) (some r.t) (some i) hrest (by omega) hprev1 hinv
          constructor
          · intro g hg
            rcases List.mem_cons.mp hg with hg | hg
            · subst hg
              exact hcons
            · obtain ⟨hb, hrest2⟩ := hall g hg
              have hb2 : i ≤ g.1 := by simpa using hb
              exact ⟨by simp only [Option.elim_some, id]; omega, hrest2⟩
          · refine List.Pairwise.cons ?_ hpw
            intro b hb
            obtain ⟨hbb, _⟩ := hall b hb
            simpa using hbb
        · rw [if_neg hlo]
          obtain ⟨hall, hpw⟩ := ih (i + 1) (some r.t) none hrest (by omega) hprev1 (by simp)
          constructor
          · intro g hg
            rcases List.mem_cons.mp hg with hg | hg
            · subst hg
              exact hcons
            · obtain ⟨hb, hrest2⟩ := hall g hg
              have hb2 : i + 1 ≤ g.1 := by simpa using hb
              exact ⟨by simp only [Option.elim_some, id]; omega, hrest2⟩
          · refine List.Pairwise.cons ?_ hpw
            intro b hb
            obtain ⟨hbb, _⟩ := hall b hb
            have : i + 1 ≤ b.1 := by simpa using hbb
            omega
      · rw [if_neg hgap]
        have hgapf : bigGapAt rows i = false := by
          rw [← hgeq]
          simpa using hgap
        by_cases hlo : r.speed < thr
        · rw [if_pos hlo]
          have hinv : ∀ s1, some s0 = some s1 → s1 < i + 1 ∧
              (∀ j, j < i + 1 → s1 ≤ j → lowAt thr rows j = true) ∧
              (∀ j, j < i + 1 → s1 < j → bigGapAt rows j = false) := by
            intro s1 hs1
            obtain rfl : s0 = s1 := Option.some.inj hs1
            refine ⟨by omega, ?_, ?_⟩
            · intro j hj1 hj2
              rcases Nat.lt_or_ge j i with hji | hji
              · exact hlows0 j hji hj2
              · have hje : j = i := by omega
                subst hje
                rw [hlowi]
                simpa using hlo
            · intro j hj1 hj2
              rcases Nat.lt_or_ge j i with hji | hji
              · exact hgaps0 j hji hj2
              · have hje : j = i := by omega
                subst hje
                exact hgapf
          obtain ⟨hall, hpw⟩ := ih (i + 1) (some r.t) (some s0) hrest (by omega) hprev1 hinv
          refine ⟨fun g hg => ?_, hpw⟩
          obtain ⟨hb, hrest2⟩ := hall g hg
          exact ⟨by simpa using hb, hrest2⟩
        · rw [if_neg hlo]
          obtain ⟨hall, hpw⟩ := ih (i + 1) (some r.t) none hrest (by omega) hprev1 (by simp)
          constructor
          · intro g hg
            rcases List.mem_cons.mp hg with hg | hg
            · subst hg
              exact hcons
            · obtain ⟨hb, hrest2⟩ := hall g hg
              have hb2 : i + 1 ≤ g.1 := by simpa using hb
              exact ⟨by simp only [Option.elim_some, id]; omega, hrest2⟩
          · refine List.Pairwise.cons ?_ hpw
            intro b hb
            obtain ⟨hbb, _⟩ := hall b hb
            have : i + 1 ≤ b.1 := by simpa using hbb
            omega

lemma seg_slice_getElem? (rows : List BaseRow) (s e j : ℕ) (hj : j < e - s) :
    ((rows.drop s).take (e - s))[j]? = rows[s + j]? := by
  rw [List.getElem?_take_of_lt hj, List.getElem?_drop]

lemma segmentQualifies_iff (rows : List BaseRow) (s e : ℕ)
    (hse : s < e) (hen : e ≤ rows.length) :
    segmentQualifies rows (s, e) = true ↔ runQualifies rows s e := by
  have hlen : ((rows.drop s).take (e - s)).length = e - s := by
    simp [List.length_take, List.length_drop]
    omega
  have hhead : ((rows.drop s).take (e - s)).head? = rows[s]? := by
    rw [List.head?_eq_getElem?, seg_slice_getElem? rows s e 0 (by omega)]
    congr 1
  have hlast : ((rows.drop s).take (e - s)).getLast? = rows[e - 1]? := by
    rw [List.getLast?_eq_getElem?, hlen, seg_slice_getElem? rows s e (e - s - 1) (by omega)]
    congr 1
    omega
  obtain ⟨a, ha⟩ : ∃ a, rows[s]? = some a :=
    ⟨rows.get ⟨s, by omega⟩, List.getElem?_eq_getElem (by omega)⟩
  obtain ⟨b, hb⟩ : ∃ b, rows[e - 1]? = some b :=
    ⟨rows.get ⟨e - 1, by omega⟩, List.getElem?_eq_getElem (by omega)⟩
  have hmem : ∀ x, x ∈ (rows.drop s).take (e - s) ↔
      ∃ j, j < e ∧ s ≤ j ∧ rows[j]? = some x := by
    intro x
    rw [List.mem_iff_getElem?]
    constructor
    · rintro ⟨j, hjx⟩
      have hjlt : j < e - s := by
        by_contra hge
        rw [List.getElem?_eq_none (by omega)] at hjx
        exact Option.noConfusion hjx
      rw [seg_slice_getElem? rows s e j hjlt] at hjx
      exact ⟨s + j, by omega, by omega, hjx⟩
    · rintro ⟨j, hj1, hj2, hjx⟩
      refine ⟨j - s, ?_⟩
      rw [seg_slice_getElem? rows s e (j - s) (by omega)]
      have : s + (j - s) = j := by omega
      rw [this]
      exact hjx
  unfold segmentQualifies
  simp only [hhead, hlast, ha, hb, hlen]
  rw [Bool.and_eq_true, Bool.and_eq_true]
  constructor
  · rintro ⟨⟨h2, hdur⟩, hany⟩
    refine ⟨by simpa using h2, ?_, ?_⟩
    · rw [List.any_eq_true] at hany
      obtain ⟨x, hx, hx0⟩ := hany
      obtain ⟨j, hj1, hj2, hjx⟩ := (hmem x).mp hx
      exact ⟨j, hj1, hj2, by rw [hjx]; simpa using hx0⟩
    · unfold durationOk
      rw [ha, hb]
      exact hdur
  · rintro ⟨h2, ⟨j, hj1, hj2, hj0⟩, hdur⟩
    have hdur2 : decide ((10 : ℚ) ≤ b.t - a.t) = true := by
      unfold durationOk at hdur
      rw [ha, hb] at hdur
      exact hdur
    refine ⟨⟨by simpa using h2, hdur2⟩, ?_⟩
    rw [List.any_eq_true]
    obtain ⟨x, hjx, hx0⟩ : ∃ x, rows[j]? = some x ∧ x.speed = 0 := by
      cases hrj : rows[j]? with
      | none => rw [hrj] at hj0; exact Option.noConfusion hj0
      | some x =>
        rw [hrj] at hj0
        exact ⟨x, rfl, by simpa using hj0⟩
    exact ⟨x, (hmem x).mpr ⟨j, hj1, hj2, hjx⟩, by simpa using hx0⟩

lemma markRows_length (qg : List (ℕ × ℕ)) :
    ∀ (l : List BaseRow) (i : ℕ), (markRows qg l i).length = l.length := by
  intro l
  induction l with
  | nil => intro i; rfl
  | cons r rest ih =>
    intro i
    simp only [markRows, List.length_cons, ih (i + 1)]

lemma markRows_getElem? (qg : List (ℕ × ℕ)) :
    ∀ (l : List BaseRow) (i j : ℕ),
      (markRows qg l i)[j]? = (l[j]?).map fun r =>
        match findSeg qg 0 (i + j) with
        | some k => ⟨r.t, r.speed, k, true⟩
        | none => ⟨r.t, r.speed, 0, false⟩ := by
  intro l
  induction l with
  | nil => intro i j; simp [markRows]
  | cons r rest ih =>
    intro i j
    cases j with
    | zero => simp [markRows]
    | succ j2 =>
      have harith : i + 1 + j2 = i + (j2 + 1) := by omega
      simp only [markRows, List.getElem?_cons_succ, List.getElem?_cons_succ,
        ih (i + 1) j2, harith]

lemma findSeg_eq_some (qg : List (ℕ × ℕ)) (hpw : qg.Pairwise fun a b => a.2 ≤ b.1)
    (m : ℕ) (hm : m < qg.length) (i : ℕ)
    (h1 : (qg.get ⟨m, hm⟩).1 ≤ i) (h2 : i < (qg.get ⟨m, hm⟩).2) :
    ∀ k, findSeg qg k i = some (k + m + 1) := by
  induction qg generalizing m with
  | nil => exact absurd hm (by simp)
  | cons g gs ih =>
    intro k
    cases m with
    | zero =>
      simp only [List.get] at h1 h2
      rw [findSeg, if_pos ⟨h1, h2⟩]
    | succ m2 =>
      have hm2 : m2 < gs.length := by simpa using hm
      simp only [List.get] at h1 h2
      have hg2 : g.2 ≤ (gs.get ⟨m2, hm2⟩).1 :=
        (List.pairwise_cons.mp hpw).1 _ (List.get_mem gs m2 hm2)
      have hnot : ¬(g.1 ≤ i ∧ i < g.2) := by
        rintro ⟨_, hlt⟩
        omega
      rw [findSeg, if_neg hnot]
      have hrec := ih (List.pairwise_cons.mp hpw).2 m2 hm2 h1 h2 (k + 1)
      rw [hrec]
      congr 1
      omega

lemma findSeg_eq_none (qg : List (ℕ × ℕ)) (i : ℕ)
    (h : ∀ g ∈ qg, ¬(g.1 ≤ i ∧ i < g.2)) :
    ∀ k, findSeg qg k i = none := by
  induction qg with
  | nil => intro k; rfl
  | cons g gs ih =>
    intro k
    rw [findSeg, if_neg (h g (List.mem_cons_self _ _))]
    exact ih (fun g2 hg2 => h g2 (List.mem_cons_of_mem _ hg2)) (k + 1)

/-- **C1 (amended)**: for every maximal contiguous low-speed run `[s, e)` of
the sorted base stream that contains no inter-row time gap above 60 seconds,
the detector marks the run as a stop segment iff the run qualifies (≥ 2 rows,
a zero-speed row, duration ≥ 10 s): every row of a qualifying run receives
`is_stopped = true` and one positive id equal to 1 plus the number of earlier
qualifying candidate intervals (ids start at 1 and increase in scan order);
every row of a non-qualifying run keeps `stop_segment = 0`, `is_stopped`
false. -/
theorem C1_stop_segment_marking (thr : ℚ) (rows : List BaseRow) (s e : ℕ)
    (hsorted : sortedByT rows = true)
    (hrun : isMaxLowRun thr rows s e)
    (hgap : noInternalGap rows s e) :
    (identify_stop_segments thr rows).length = rows.length ∧
    (runQualifies rows s e →
      ∀ j, j < e → s ≤ j →
        ((identify_stop_segments thr rows)[j]?).map
            (fun x => (x.stop_segment, x.is_stopped))
          = some (((qualifyingGroups thr rows).filter fun g => g.2 ≤ s).length + 1,
              true)) ∧
    (¬runQualifies rows s e →
      ∀ j, j < e → s ≤ j →
        ((identify_stop_segments thr rows)[j]?).map
            (fun x => (x.stop_segment, x.is_stopped)) = some (0, false)) := by
  obtain ⟨hse, hen, hlow, hstart, hend⟩ := hrun
  have hmem : (s, e) ∈ lowGroups thr rows 0 none none := by
    refine lowGroups_complete thr rows s e hse hen hlow ?_ ?_ hgap rows 0 none none
      (List.drop_zero rows).symm (Nat.zero_le _) (by omega) (by simp)
      (Or.inl (Nat.zero_le _))
    · rcases hstart with h | h
      · exact Or.inl h
      · exact Or.inr (Or.inl h)
    · rcases hend with h | h
      · exact Or.inl h
      · exact Or.inr (Or.inl h)
  obtain ⟨hall, hpw⟩ := lowGroups_sound thr rows rows 0 none none
    (List.drop_zero rows).symm (Nat.zero_le _) (by omega) (by simp)
  have hpwq : (qualifyingGroups thr rows).Pairwise (fun a b => a.2 ≤ b.1) :=
    List.Pairwise.filter _ hpw
  refine ⟨markRows_length _ rows 0, ?_, ?_⟩
  · intro hq j hj1 hj2
    have hjn : j < rows.length := by omega
    have hqb : segmentQualifies rows (s, e) = true :=
      (segmentQualifies_iff rows s e hse hen).mpr hq
    have hqmem : (s, e) ∈ qualifyingGroups thr rows :=
      List.mem_filter.mpr ⟨hmem, hqb⟩
    obtain ⟨m, hm, hget⟩ := List.mem_iff_getElem.mp hqmem
    have hfind : findSeg (qualifyingGroups thr rows) 0 j = some (0 + m + 1) := by
      refine findSeg_eq_some _ hpwq m hm j ?_ ?_ 0
      · simp only [List.get_eq_getElem, hget]
        exact hj2
      · simp only [List.get_eq_getElem, hget]
        exact hj1
    have htake : ∀ x ∈ (qualifyingGroups thr rows).take m, x.2 ≤ s := by
      intro x hx
      obtain ⟨a, ha2, hxa⟩ := List.mem_iff_getElem.mp hx
      have ham : a < m := by
        have := ha2
        simp only [List.length_take] at this
        omega
      have haq : a < (qualifyingGroups thr rows).length := lt_trans ham hm
      rw [List.getElem_take] at hxa
      have hpair := List.pairwise_iff_getElem.mp hpwq a m haq hm ham
      rw [hxa, hget] at hpair
      exact hpair
    have hdrop : ∀ x ∈ (qualifyingGroups thr rows).drop m, ¬(x.2 ≤ s) := by
      intro x hx
      obtain ⟨a, ha2, hxa⟩ := List.mem_iff_getElem.mp hx
      rw [List.getElem_drop] at hxa
      have hma : m + a < (qualifyingGroups thr rows).length := by
        have := ha2
        simp only [List.length_drop] at this
        omega
      cases a with
      | zero =>
        have hx0 : x = (s, e) := by
          rw [← hxa, ← hget]
          congr 1
        subst hx0
        show ¬e ≤ s
        omega
      | succ a2 =>
        have hx1 : x.1 < x.2 := by
          have hxq : x ∈ qualifyingGroups thr rows := List.mem_of_mem_drop hx
          exact (hall x (List.mem_of_mem_filter hxq)).2.1
        have hpair := List.pairwise_iff_getElem.mp hpwq m (m + (a2 + 1)) hm hma (by omega)
        rw [hxa, hget] at hpair
        have hpair2 : e ≤ x.1 := hpair
        omega
    have hid : ((qualifyingGroups thr rows).filter fun g => g.2 ≤ s).length = m := by
      have hsplit : qualifyingGroups thr rows
          = (qualifyingGroups thr rows).take m ++ (qualifyingGroups thr rows).drop m :=
        (List.take_append_drop m _).symm
      have hfeq : (qualifyingGroups thr rows).filter (fun g => decide (g.2 ≤ s))
          = (qualifyingGroups thr rows).take m := by
        conv_lhs => rw [hsplit]
        rw [List.filter_append,
          List.filter_eq_self.mpr (fun x hx => by simpa using htake x hx),
          List.filter_eq_nil_iff.mpr (fun x hx => by simpa using hdrop x hx),
          List.append_nil]
      rw [hfeq, List.length_take]
      exact Nat.min_eq_left hm.le
    unfold identify_stop_segments
    rw [markRows_getElem? _ rows 0 j, List.getElem?_eq_getElem hjn]
    simp only [Nat.zero_add, hfind, Option.map_some, hid]
    rfl
  · intro hnq j hj1 hj2
    have hjn : j < rows.length := by omega
    have hqb : segmentQualifies rows (s, e) = false := by
      rcases Bool.eq_false_or_eq_true (segmentQualifies rows (s, e)) with h | h
      · exact absurd ((segmentQualifies_iff rows s e hse hen).mp h) hnq
      · exact h
    have hnone : ∀ g ∈ qualifyingGroups thr rows, ¬(g.1 ≤ j ∧ j < g.2) := by
      rintro g hg ⟨hg1, hg2⟩
      have hgG : g ∈ lowGroups thr rows 0 none none := List.mem_of_mem_filter hg
      have hgq : segmentQualifies rows g = true := List.of_mem_filter hg
      obtain ⟨a, ha, hga⟩ := List.mem_iff_getElem.mp hgG
      obtain ⟨b2, hb2, hgb⟩ := List.mem_iff_getElem.mp hmem
      rcases Nat.lt_trichotomy a b2 with hab | hab | hab
      · have hpair := List.pairwise_iff_getElem.mp hpw a b2 ha hb2 hab
        rw [hga, hgb] at hpair
        have hpair2 : g.2 ≤ s := hpair
        omega
      · subst hab
        have hgse : g = (s, e) := by rw [← hga, hgb]
        rw [hgse, hqb] at hgq
        exact Bool.noConfusion hgq
      · have hpair := List.pairwise_iff_getElem.mp hpw b2 a hb2 ha hab
        rw [hga, hgb] at hpair
        have hpair2 : e ≤ g.1 := hpair
        omega
    have hfind := findSeg_eq_none _ j hnone 0
    unfold identify_stop_segments
    rw [markRows_getElem? _ rows 0 j, List.getElem?_eq_getElem hjn]
    simp only [Nat.zero_add, hfind, Option.map_some]
    rfl

unseal Rat.mul Rat.sub Rat.add Rat.inv in
/-- **C1 counterexample**: every row of the stream below is under the
threshold, so rows 0–4 form one maximal low-speed run closed by end of
stream; it satisfies the claim's qualification rule (duration 85 s ≥ 10 s,
zero-speed rows present, ≥ 2 rows), yet the detector leaves row 0 unmarked
(`stop_segment = 0`, `is_stopped = false`) while rows after the 70-second gap
get segment id 1 — the run is not marked as one StopSegment, so the claim as
stated fails on this input. -/
theorem C1_counterexample :
    isMaxLowRun 10 [{ t := 0, speed := 0 }, { t := 5, speed := 0 },
        { t := 75, speed := 0 }, { t := 76, speed := 0 }, { t := 85, speed := 0 }] 0 5 ∧
    runQualifies [{ t := 0, speed := 0 }, { t := 5, speed := 0 },
        { t := 75, speed := 0 }, { t := 76, speed := 0 }, { t := 85, speed := 0 }] 0 5 ∧
    ((identify_stop_segments 10 [{ t := 0, speed := 0 }, { t := 5, speed := 0 },
        { t := 75, speed := 0 }, { t := 76, speed := 0 },
        { t := 85, speed := 0 }])[0]?).map (fun x => (x.stop_segment, x.is_stopped))
      = some (0, false) ∧
    ((identify_stop_segments 10 [{ t := 0, speed := 0 }, { t := 5, speed := 0 },
        { t := 75, speed := 0 }, { t := 76, speed := 0 },
        { t := 85, speed := 0 }])[2]?).map (fun x => (x.stop_segment, x.is_stopped))
      = some (1, true) := by
  decide

unseal Rat.mul Rat.sub Rat.add Rat.inv in
/-- Witness for C1 on the spec's example stream: speeds
`15, 8, 3, 0, 4, 2, 1, 0, 2, 3, 1, 2, 3, 15` at one-second spacing; the
maximal low run `[1, 13)` qualifies and its rows get id 1. -/
theorem C1_witness :
    ((identify_stop_segments 10 [{ t := 0, speed := 15 }, { t := 1, speed := 8 },
        { t := 2, speed := 3 }, { t := 3, speed := 0 }, { t := 4, speed := 4 },
        { t := 5, speed := 2 }, { t := 6, speed := 1 }, { t := 7, speed := 0 },
        { t := 8, speed := 2 }, { t := 9, speed := 3 }, { t := 10, speed := 1 },
        { t := 11, speed := 2 }, { t := 12, speed := 3 },
        { t := 13, speed := 15 }])[5]?).map (fun x => (x.stop_segment, x.is_stopped))
      = some (((qualifyingGroups 10 [{ t := 0, speed := 15 }, { t := 1, speed := 8 },
          { t := 2, speed := 3 }, { t := 3, speed := 0 }, { t := 4, speed := 4 },
          { t := 5, speed := 2 }, { t := 6, speed := 1 }, { t := 7, speed := 0 },
          { t := 8, speed := 2 }, { t := 9, speed := 3 }, { t := 10, speed := 1 },
          { t := 11, speed := 2 }, { t := 12, speed := 3 },
          { t := 13, speed := 15 }]).filter fun g => g.2 ≤ 1).length + 1, true) :=
  (C1_stop_segment_marking 10 _ 1 13 (by decide) (by decide) (by decide)).2.1
    (by decide) 5 (by decide) (by decide)

/-- **C6**: a time gap above 60 seconds inside an otherwise-maximal low-speed
run force-closes the candidate interval at the prior row and opens a new one:
with a single internal big gap at index `g`, both halves `[s, g)` and `[g, e)`
are candidate intervals, and no candidate interval spans the gap (none
contains both `g - 1` and `g`), so the two halves are never merged. -/
theorem C6_gap_splits_candidate_runs (thr : ℚ) (rows : List BaseRow) (s g e : ℕ)
    (hrun : isMaxLowRun thr rows s e)
    (hg1 : s < g) (hg2 : g < e)
    (hbig : bigGapAt rows g = true)
    (hothers : ∀ i, i < e → s < i → i ≠ g → bigGapAt rows i = false) :
    (s, g) ∈ lowGroups thr rows 0 none none ∧
    (g, e) ∈ lowGroups thr rows 0 none none ∧
    ∀ p ∈ lowGroups thr rows 0 none none, ¬(p.1 < g ∧ g < p.2) := by
  obtain ⟨hse, hen, hlow, hstart, hend⟩ := hrun
  refine ⟨?_, ?_, ?_⟩
  · refine lowGroups_complete thr rows s g hg1 (by omega) ?_ ?_ ?_ ?_ rows 0 none none
      (List.drop_zero rows).symm (Nat.zero_le _) (by omega) (by simp)
      (Or.inl (Nat.zero_le _))
    · intro i hi1 hi2
      exact hlow i (by omega) hi2
    · rcases hstart with h | h
      · exact Or.inl h
      · exact Or.inr (Or.inl h)
    · exact Or.inr (Or.inr hbig)
    · intro i hi1 hi2
      exact hothers i (by omega) hi2 (by omega)
  · refine lowGroups_complete thr rows g e hg2 hen ?_ ?_ ?_ ?_ rows 0 none none
      (List.drop_zero rows).symm (Nat.zero_le _) (by omega) (by simp)
      (Or.inl (Nat.zero_le _))
    · intro i hi1 hi2
      exact hlow i hi1 (by omega)
    · exact Or.inr (Or.inr (by simpa using hbig))
    · rcases hend with h | h
      · exact Or.inl h
      · exact Or.inr (Or.inl h)
    · intro i hi1 hi2
      exact hothers i hi1 (by omega) (by omega)
  · rintro p hp ⟨hp1, hp2⟩
    obtain ⟨hall, _⟩ := lowGroups_sound thr rows rows 0 none none
      (List.drop_zero rows).symm (Nat.zero_le _) (by omega) (by simp)
    have hnogap := (hall p hp).2.2.2.2 g hp2 hp1
    rw [hbig] at hnogap
    exact Bool.noConfusion hnogap

unseal Rat.mul Rat.sub Rat.add Rat.inv in
/-- Witness for C6: a 70-second gap in the middle of an otherwise-qualifying
low-speed run (speeds 0 throughout) splits it into the two candidate
intervals `(0, 2)` and `(2, 5)`, and no candidate interval spans the gap. -/
theorem C6_witness :
    (0, 2) ∈ lowGroups 10 [{ t := 0, speed := 0 }, { t := 5, speed := 0 },
        { t := 75, speed := 0 }, { t := 76, speed := 0 }, { t := 85, speed := 0 }] 0 none none ∧
    (2, 5) ∈ lowGroups 10 [{ t := 0, speed := 0 }, { t := 5, speed := 0 },
        { t := 75, speed := 0 }, { t := 76, speed := 0 }, { t := 85, speed := 0 }] 0 none none ∧
    ∀ p ∈ lowGroups 10 [{ t := 0, speed := 0 }, { t := 5, speed := 0 },
        { t := 75, speed := 0 }, { t := 76, speed := 0 },
        { t := 85, speed := 0 }] 0 none none, ¬(p.1 < 2 ∧ 2 < p.2) :=
  C6_gap_splits_candidate_runs 10 _ 0 2 5 (by decide) (by decide) (by decide)
    (by decide) (by decide)

/-! ## Segment labeling: characterization of `label_stop_segments` (C2) -/

lemma filter_map_shape (p : LRow → Bool) (f : LRow → LRow) (rows : List LRow)
    (hp : ∀ x, p (f x) = p x) :
    (rows.map f).filter p = (rows.filter p).map f := by
  rw [List.filter_map]
  congr 1
  exact List.filter_congr fun x _ => hp x

/-- The per-event target search only reads the timestamp, stopped flag and
segment id, so it is unchanged by label-only updates. -/
lemma eventTargetSeg_map_label (rows : List LRow) (f : LRow → LRow)
    (hf : ∀ x, (f x).t = x.t ∧ (f x).stop_segment = x.stop_segment ∧
      (f x).is_stopped = x.is_stopped)
    (ev : LRow) :
    eventTargetSeg (rows.map f) ev = eventTargetSeg rows ev := by
  have h1 : (rows.map f).filter (fun r => decide (r.t < ev.t))
      = (rows.filter fun r => decide (r.t < ev.t)).map f :=
    filter_map_shape _ f rows fun x => by rw [(hf x).1]
  have h1b : (rows.map f).filter (fun r => decide (ev.t < r.t))
      = (rows.filter fun r => decide (ev.t < r.t)).map f :=
    filter_map_shape _ f rows fun x => by rw [(hf x).1]
  have h2 : ∀ l : List LRow, (l.map f).filter (fun r => r.is_stopped)
      = (l.filter fun r => r.is_stopped).map f := fun l =>
    filter_map_shape _ f l fun x => (hf x).2.2
  unfold eventTargetSeg
  by_cases he1 : ev.event_type = 1
  · simp only [if_pos he1]
    rw [h1, h2, List.getLast?_map]
    cases hlast : ((rows.filter fun r => decide (r.t < ev.t)).filter
        fun r => r.is_stopped).getLast? with
    | none => rfl
    | some r =>
      show (if 0 < (f r).stop_segment then some (f r).stop_segment else none)
        = if 0 < r.stop_segment then some r.stop_segment else none
      rw [(hf r).2.1]
  · by_cases he2 : ev.event_type = 2
    · simp only [if_neg he1, if_pos he2]
      rw [h1b, h2, List.head?_map]
      cases hhead : ((rows.filter fun r => decide (ev.t < r.t)).filter
          fun r => r.is_stopped).head? with
      | none => rfl
      | some r =>
        show (if 0 < (f r).stop_segment then some (f r).stop_segment else none)
          = if 0 < r.stop_segment then some r.stop_segment else none
        rw [(hf r).2.1]
    · simp only [if_neg he1, if_neg he2]

lemma finalLabel_append (base E : List LRow) (ev x : LRow) :
    finalLabel base (E ++ [ev]) x =
      if eventTargetSeg base ev = some x.stop_segment then ev.event_type
      else finalLabel base E x := by
  unfold finalLabel
  rw [List.filter_append]
  by_cases htgt : eventTargetSeg base ev = some x.stop_segment
  · rw [if_pos htgt]
    have : List.filter (fun ev2 => decide (eventTargetSeg base ev2 = some x.stop_segment))
        [ev] = [ev] := by
      simp [htgt]
    rw [this, List.getLast?_append]
    rfl
  · rw [if_neg htgt]
    have : List.filter (fun ev2 => decide (eventTargetSeg base ev2 = some x.stop_segment))
        [ev] = [] := by
      simp [htgt]
    rw [this, List.getLast?_append]
    rfl

lemma labeledRows_no_update (base E : List LRow) (ev : LRow)
    (htgt : eventTargetSeg base ev = none) :
    labeledRows base (E ++ [ev]) = labeledRows base E := by
  unfold labeledRows
  refine List.map_congr_left fun x hx => ?_
  rw [finalLabel_append, if_neg (by rw [htgt]; simp)]

lemma labeledRows_update (base E : List LRow) (ev : LRow) (seg : ℕ)
    (htgt : eventTargetSeg base ev = some seg) :
    (labeledRows base E).map
        (fun x => if x.stop_segment = seg then { x with label := ev.event_type } else x)
      = labeledRows base (E ++ [ev]) := by
  unfold labeledRows
  rw [List.map_map]
  refine List.map_congr_left fun x hx => ?_
  simp only [Function.comp]
  rw [finalLabel_append]
  by_cases hxseg : x.stop_segment = seg
  · rw [if_pos hxseg, if_pos (by rw [htgt, hxseg])]
  · rw [if_neg hxseg, if_neg (by rw [htgt]; simpa using fun h => hxseg h.symm)]

/-- One `applyEvent` step turns the labeling for event prefix `E` into the
labeling for `E ++ [ev]`. -/
lemma applyEvent_labeledRows (base E : List LRow) (ev : LRow) :
    applyEvent (labeledRows base E) ev = labeledRows base (E ++ [ev]) := by
  have h1 : (labeledRows base E).filter (fun r => decide (r.t < ev.t))
      = (base.filter fun r => decide (r.t < ev.t)).map
          fun x => { x with label := finalLabel base E x } :=
    filter_map_shape _ _ base fun x => rfl
  have h1b : (labeledRows base E).filter (fun r => decide (ev.t < r.t))
      = (base.filter fun r => decide (ev.t < r.t)).map
          fun x => { x with label := finalLabel base E x } :=
    filter_map_shape _ _ base fun x => rfl
  have h2 : ∀ l : List LRow,
      (l.map fun x => { x with label := finalLabel base E x }).filter
          (fun r => r.is_stopped)
        = (l.filter fun r => r.is_stopped).map
            fun x => { x with label := finalLabel base E x } := fun l =>
    filter_map_shape _ _ l fun x => rfl
  unfold applyEvent
  by_cases he1 : ev.event_type = 1
  · rw [if_pos he1, h1, h2, List.getLast?_map]
    cases hlast : ((base.filter fun r => decide (r.t < ev.t)).filter
        fun r => r.is_stopped).getLast? with
    | none =>
      show labeledRows base E = labeledRows base (E ++ [ev])
      refine (labeledRows_no_update base E ev ?_).symm
      unfold eventTargetSeg
      rw [if_pos he1, hlast]
    | some r =>
      show (if 0 < r.stop_segment then
          (labeledRows base E).map fun x =>
            if x.stop_segment = r.stop_segment then { x with label := 1 } else x
        else labeledRows base E) = labeledRows base (E ++ [ev])
      by_cases hpos : 0 < r.stop_segment
      · rw [if_pos hpos]
        have htgt2 : eventTargetSeg base ev = some r.stop_segment := by
          unfold eventTargetSeg
          rw [if_pos he1, hlast]
          show (if 0 < r.stop_segment then some r.stop_segment else none)
            = some r.stop_segment
          rw [if_pos hpos]
        rw [show (1 : ℕ) = ev.event_type from he1.symm]
        exact labeledRows_update base E ev r.stop_segment htgt2
      · rw [if_neg hpos]
        refine (labeledRows_no_update base E ev ?_).symm
        unfold eventTargetSeg
        rw [if_pos he1, hlast]
        show (if 0 < r.stop_segment then some r.stop_segment else none) = none
        rw [if_neg hpos]
  · by_cases he2 : ev.event_type = 2
    · rw [if_neg he1, if_pos he2, h1b, h2, List.head?_map]
      cases hhead : ((base.filter fun r => decide (ev.t < r.t)).filter
          fun r => r.is_stopped).head? with
      | none =>
        show labeledRows base E = labeledRows base (E ++ [ev])
        refine (labeledRows_no_update base E ev ?_).symm
        unfold eventTargetSeg
        rw [if_neg he1, if_pos he2, hhead]
      | some r =>
        show (if 0 < r.stop_segment then
            (labeledRows base E).map fun x =>
              if x.stop_segment = r.stop_segment then { x with label := 2 } else x
          else labeledRows base E) = labeledRows base (E ++ [ev])
        by_cases hpos : 0 < r.stop_segment
        · rw [if_pos hpos]
          have htgt2 : eventTargetSeg base ev = some r.stop_segment := by
            unfold eventTargetSeg
            rw [if_neg he1, if_pos he2, hhead]
            show (if 0 < r.stop_segment then some r.stop_segment else none)
              = some r.stop_segment
            rw [if_pos hpos]
          rw [show (2 : ℕ) = ev.event_type from he2.symm]
          exact labeledRows_update base E ev r.stop_segment htgt2
        · rw [if_neg hpos]
          refine (labeledRows_no_update base E ev ?_).symm
          unfold eventTargetSeg
          rw [if_neg he1, if_pos he2, hhead]
          show (if 0 < r.stop_segment then some r.stop_segment else none) = none
          rw [if_neg hpos]
    · rw [if_neg he1, if_neg he2]
      refine (labeledRows_no_update base E ev ?_).symm
      unfold eventTargetSeg
      rw [if_neg he1, if_neg he2]

lemma foldl_applyEvent (base : List LRow) :
    ∀ (evs E : List LRow),
      evs.foldl applyEvent (labeledRows base E) = labeledRows base (E ++ evs) := by
  intro evs
  induction evs with
  | nil =>
    intro E
    simp
  | cons ev rest ih =>
    intro E
    rw [List.foldl_cons, applyEvent_labeledRows base E ev, ih (E ++ [ev]),
      List.append_assoc]
    rfl

lemma map_label_zero_eq_self : ∀ (l : List LRow), (∀ x ∈ l, x.label = 0) →
    (l.map fun x => { x with label := 0 }) = l := by
  intro l
  induction l with
  | nil => intro h; rfl
  | cons a l2 ih =>
    intro h
    have ha := h a (List.mem_cons_self _ _)
    have hl2 := ih fun x hx => h x (List.mem_cons_of_mem _ hx)
    simp only [List.map_cons, hl2]
    cases a with
    | mk t et seg st lb =>
      have ha2 : lb = 0 := ha
      subst ha2
      rfl

lemma labeledRows_nil_of_zero (base : List LRow) (h : ∀ x ∈ base, x.label = 0) :
    labeledRows base [] = base := by
  unfold labeledRows
  have hstep : base.map (fun x => { x with label := finalLabel base [] x })
      = base.map fun x => { x with label := 0 } :=
    List.map_congr_left fun x hx => rfl
  rw [hstep]
  exact map_label_zero_eq_self base h

/-- **C2 (amended)**: `label_stop_segments` first zeroes all labels, then each
row's final label is the event type of the LAST event row targeting its
segment, where a BOARDING event (`event_type = 1`) targets the (positive)
segment of the last stopped row STRICTLY BEFORE the event's timestamp —
possibly the segment containing the event itself — an ALIGHTING event
(`event_type = 2`) targets the (positive) segment of the first stopped row
STRICTLY AFTER its timestamp (`eventTargetSeg`), an event with no stopped row
on the required side (or with segment id 0 there) has no effect, and rows
belonging to no targeted segment keep label 0 (`finalLabel`/`labeledRows`). -/
theorem C2_label_propagation (df : List LRow) :
    label_stop_segments df
      = labeledRows (df.map fun r => { r with label := 0 })
          ((df.map fun r => { r with label := 0 }).filter fun r => 0 < r.event_type) := by
  have hz : ∀ x ∈ (df.map fun r => ({ r with label := 0 } : LRow)), x.label = 0 := by
    intro x hx
    obtain ⟨r, _, rfl⟩ := List.mem_map.mp hx
    rfl
  have key : ∀ evs : List LRow,
      evs.foldl applyEvent (df.map fun r => { r with label := 0 })
        = labeledRows (df.map fun r => { r with label := 0 }) evs := by
    intro evs
    conv_lhs =>
      rw [← labeledRows_nil_of_zero (df.map fun r => { r with label := 0 }) hz]
    rw [foldl_applyEvent, List.nil_append]
  exact key _

unseal Rat.mul Rat.sub Rat.add Rat.inv in
/-- **C2 counterexample**: segment 1 ends at t = 20 ≤ 110 while segment 2
ends at t = 120 > 110, so under the claim the BOARDING event at t = 110 (a
row inside segment 2) must label the most recent segment ending at or before
its timestamp — segment 1; the code instead takes the segment of the last
stopped row strictly before t = 110, which is segment 2: segment 1's rows
keep label 0 and segment 2 gets label 1, refuting the claim as stated. -/
theorem C2_counterexample :
    (([⟨0, 0, 1, true, 0⟩, ⟨20, 0, 1, true, 0⟩, ⟨50, 0, 0, false, 0⟩,
        ⟨100, 0, 2, true, 0⟩, ⟨110, 1, 2, true, 0⟩, ⟨120, 0, 2, true, 0⟩] :
        List LRow).filter fun r => r.stop_segment = 1).getLast?.map LRow.t
      = some 20 ∧
    (([⟨0, 0, 1, true, 0⟩, ⟨20, 0, 1, true, 0⟩, ⟨50, 0, 0, false, 0⟩,
        ⟨100, 0, 2, true, 0⟩, ⟨110, 1, 2, true, 0⟩, ⟨120, 0, 2, true, 0⟩] :
        List LRow).filter fun r => r.stop_segment = 2).getLast?.map LRow.t
      = some 120 ∧
    ((label_stop_segments [⟨0, 0, 1, true, 0⟩, ⟨20, 0, 1, true, 0⟩,
        ⟨50, 0, 0, false, 0⟩, ⟨100, 0, 2, true, 0⟩, ⟨110, 1, 2, true, 0⟩,
        ⟨120, 0, 2, true, 0⟩])[0]?).map LRow.label = some 0 ∧
    ((label_stop_segments [⟨0, 0, 1, true, 0⟩, ⟨20, 0, 1, true, 0⟩,
        ⟨50, 0, 0, false, 0⟩, ⟨100, 0, 2, true, 0⟩, ⟨110, 1, 2, true, 0⟩,
        ⟨120, 0, 2, true, 0⟩])[1]?).map LRow.label = some 0 ∧
    ((label_stop_segments [⟨0, 0, 1, true, 0⟩, ⟨20, 0, 1, true, 0⟩,
        ⟨50, 0, 0, false, 0⟩, ⟨100, 0, 2, true, 0⟩, ⟨110, 1, 2, true, 0⟩,
        ⟨120, 0, 2, true, 0⟩])[3]?).map LRow.label = some 1 := by
  decide

end Probe
